import Mathlib

/-!
# Shallow embedding of the nizam-agent-c2 fusion / COP pipeline

This file models, in Lean, the parts of the repository that the verified
properties below are about:

* `src/agents/fuser/fuser_agent.py` — bucketed track identities, RF bearing
  association, sensor-evidence accounting, track/threat emission;
* `src/agents/threat/threat_agent.py` — the v0 threat scoring rule;
* `src/nizam-backend/main.py`        — the COP state store: event ingestion,
  track normalization, pause/resume buffering, the aging tick, and the
  websocket broadcast hub;
* `src/cop/server.py`                — the (equivalent) broadcast fan-out.

Python dictionaries are modelled as insertion-ordered association lists
(`Dict`), JSON values as the inductive `Val`, wall-clock times and all other
numbers as rationals.  Fallible paths (a Python statement that raises) are
modelled with `Option`: `none` is an uncaught exception.
-/

namespace Nizam

/-- A JSON-like value, as carried in event payloads and in the COP store. -/
inductive Val where
  | vstr (s : String)
  | vnum (q : ℚ)
  | vbool (b : Bool)
  | vnull
  | vdict (d : List (String × Val))

/-- A Python `dict` with string keys: an insertion-ordered association list. -/
abbrev Dict := List (String × Val)

/-- `d[k]` / `d.get(k)`: first binding of `k` (lists built by `dset` hold at
most one binding per key, like a Python dict). -/
def dlookup : Dict → String → Option Val
  | [], _ => none
  | (k, v) :: rest, key => if k = key then some v else dlookup rest key

/-- `d[k] = v`: update the existing binding in place (keeping insertion
order), or append a new binding at the end — Python dict assignment. -/
def dset : Dict → String → Val → Dict
  | [], key, v => [(key, v)]
  | (k, w) :: rest, key, v =>
    if k = key then (key, v) :: rest else (k, w) :: dset rest key v

/-- `base.update(upd)`: merge `upd` into `base`, `upd` winning on clashes
(Python `dict.update`, iterating the items of `upd` in order). -/
def dupdate (base upd : Dict) : Dict :=
  upd.foldl (fun b kv => dset b kv.1 kv.2) base

/-- The keys of a dict, in insertion order. -/
def dkeys (d : Dict) : List String := d.map Prod.fst

/-! ## Fuser geometry (`fuser_agent.py`)

`wrap_deg(a) = (a + 180.0) % 360.0 - 180.0`; Python `%` with a positive
divisor is `a - b * floor(a / b)`. -/

/-- Python float `%` for a positive divisor. -/
def fmod (a b : ℚ) : ℚ := a - b * ⌊a / b⌋

/-- `wrap_deg`: wrap an angle into `[-180, 180)`. -/
def wrap_deg (a : ℚ) : ℚ := fmod (a + 180) 360 - 180

/-- `ang_diff_deg`: absolute wrapped angular difference. -/
def ang_diff_deg (a b : ℚ) : ℚ := |wrap_deg (a - b)|

/-! ## Threat scoring (`threat_agent.py`, `score_and_assess`) -/

/-- `score_and_assess(range_m, radial_velocity_mps)`: v0 rule-based threat
score.  Returns `(level, score, tti_s, reasons)`; reason strings abstract the
Python `%.1f` formatting. -/
def score_and_assess (range_m radial_velocity_mps : ℚ) :
    String × ℤ × Option ℚ × List String :=
  let reasons : List String := []
  let score : ℤ := 0
  let closing_speed : ℚ := max 0 (-radial_velocity_mps)
  let (score, reasons) :=
    if closing_speed > 5 then
      (score + 20, reasons ++ ["Approaching target"])
    else (score, reasons)
  let tti_s : Option ℚ := if closing_speed > 0 then some (range_m / closing_speed) else none
  let (score, reasons) :=
    match tti_s with
    | some t => if t < 60 then (score + 40, reasons ++ ["TTI < 60s"]) else (score, reasons)
    | none => (score, reasons)
  let (score, reasons) :=
    if range_m < 500 then (score + 30, reasons ++ ["Close range (<500m)"])
    else (score, reasons)
  let level := if score ≥ 80 then "HIGH" else if score ≥ 50 then "MEDIUM" else "LOW"
  (level, score, tti_s, reasons)

/-- The numeric score produced by `score_and_assess`. -/
def threatScore (range_m radial_velocity_mps : ℚ) : ℤ :=
  (score_and_assess range_m radial_velocity_mps).2.1

/-- Closing speed as computed by `score_and_assess`. -/
def closingSpeed (radial_velocity_mps : ℚ) : ℚ := max 0 (-radial_velocity_mps)

/-! ## Fuser track model (`fuser_agent.py`) -/

/-- Python `f"{n:03d}"`: zero-pad to total width 3, sign included. -/
def pad3 (n : ℤ) : String :=
  let mag := toString n.natAbs
  let pad := fun (w : Nat) (s : String) =>
    if s.length ≥ w then s
    else String.mk (List.replicate (w - s.length) '0') ++ s
  if n < 0 then "-" ++ pad 2 mag else pad 3 mag

/-- `make_track_id(range_m, az_deg)`: bucket key
`f"T-R{int(range_m // 100):03d}-A{int((az_deg + 180) // 10):03d}"`.
Note the source does not wrap the azimuth here. -/
def make_track_id (range_m az_deg : ℚ) : String :=
  let r_bin : ℤ := ⌊range_m / 100⌋
  let a_bin : ℤ := ⌊(az_deg + 180) / 10⌋
  "T-R" ++ pad3 r_bin ++ "-A" ++ pad3 a_bin

/-- A fusion-side `Track` object. -/
structure FTrack where
  track_id : String
  last_ts : String := ""
  range_m : Option ℚ := none
  az_deg : Option ℚ := none
  el_deg : Option ℚ := none
  radial_velocity_mps : Option ℚ := none
  supporting_sensors : List (String × Nat) := []
  evidence : List String := []
deriving DecidableEq

/-- `supporting_sensors[s] = get(s, 0) + 1`: bump an existing counter in
place or append a new one (Python dict insertion order). -/
def bump : List (String × Nat) → String → List (String × Nat)
  | [], s => [(s, 1)]
  | (k, n) :: rest, s =>
    if k = s then (k, n + 1) :: rest else (k, n) :: bump rest s

/-- `Track.touch_sensor(s, note)`. -/
def touch_sensor (tr : FTrack) (s note : String) : FTrack :=
  { tr with
    supporting_sensors := bump tr.supporting_sensors s
    evidence := if note ≠ "" then tr.evidence ++ [note] else tr.evidence }

/-- `Track.num_unique_sensors() = len(supporting_sensors.keys())`. -/
def num_unique_sensors (tr : FTrack) : Nat := tr.supporting_sensors.length

/-- Lookup in the fuser's `tracks` dict. -/
def tlookup : List (String × FTrack) → String → Option FTrack
  | [], _ => none
  | (k, v) :: rest, key => if k = key then some v else tlookup rest key

/-- Assignment in the fuser's `tracks` dict. -/
def tset : List (String × FTrack) → String → FTrack → List (String × FTrack)
  | [], key, v => [(key, v)]
  | (k, w) :: rest, key, v =>
    if k = key then (key, v) :: rest else (k, w) :: tset rest key v

/-- A radar detection record (absent fields are `none`; `el_deg` and
`radial_velocity_mps` default to `0.0` via `det.get(..., 0.0)`). -/
structure RadarDet where
  range_m : Option ℚ
  az_deg : Option ℚ
  el_deg : ℚ := 0
  radial_velocity_mps : ℚ := 0
deriving DecidableEq

/-- An RF detection record. -/
structure RFDet where
  bearing_deg : Option ℚ
  conf : Option ℚ := none
deriving DecidableEq

/-- One input line to the fuser, abstracted to the fields it reads. -/
inductive FEvent where
  | radar (ts : String) (dets : List RadarDet)
  | rf (ts : String) (dets : List RFDet)
  | other
deriving DecidableEq

/-- An event emitted by the fuser (`track.update` / `threat.assessment`
payload fields the properties are about). -/
inductive FOut where
  | trackUpdate (track_id status : String) (supporting : List String)
  | threat (track_id level : String) (score : ℤ)
deriving DecidableEq

/-- Processing of one radar detection inside the radar branch of `main`. -/
def radar_step (tracks : List (String × FTrack)) (ts : String)
    (det : RadarDet) : List (String × FTrack) :=
  match det.range_m, det.az_deg with
  | some r, some az =>
    let track_id := make_track_id r az
    let tr := (tlookup tracks track_id).getD { track_id := track_id }
    let tr := { tr with
      last_ts := ts
      range_m := some r
      az_deg := some az
      el_deg := some det.el_deg
      radial_velocity_mps := some det.radial_velocity_mps }
    let tr := touch_sensor tr "RADAR" "RADAR update"
    tset tracks track_id tr
  | _, _ => tracks

/-- The loop body of `find_best_track_for_rf`: `best` is the pair
`(best distance so far, best track so far)`, updated on strict improvement
only (so the first of an angular tie wins). -/
def fb_acc (bearing_deg : ℚ) (acc : ℚ × Option FTrack)
    (kv : String × FTrack) : ℚ × Option FTrack :=
  match kv.2.az_deg with
  | none => acc
  | some az =>
    let d := ang_diff_deg az bearing_deg
    if d < acc.1 then (d, some kv.2) else acc

/-- `find_best_track_for_rf(bearing_deg)`: linear scan for the angularly
closest track, starting from `best = (1e9, None)`, gated afterwards. -/
def find_best_track_for_rf (bearing_gate_deg : ℚ)
    (tracks : List (String × FTrack)) (bearing_deg : ℚ) : Option FTrack :=
  let best := tracks.foldl (fb_acc bearing_deg) ((1000000000 : ℚ), none)
  match best.2 with
  | none => none
  | some tr => if best.1 ≤ bearing_gate_deg then some tr else none

/-- The wrapped angular distances of the tracks that have a known azimuth,
in iteration order (`ang_diff_deg(tr.az_deg, bearing_deg)` per track). -/
def distList (tracks : List (String × FTrack)) (bearing_deg : ℚ) : List ℚ :=
  tracks.filterMap (fun kv => kv.2.az_deg.map (fun az => ang_diff_deg az bearing_deg))

/-- The RF branch of the fuser loop: associate, touch `RF`, emit a
`track.update` and, when 2+ unique sensors, a boosted `threat.assessment`. -/
def rf_step (bearing_gate_deg : ℚ) (tracks : List (String × FTrack))
    (dets : List RFDet) : List (String × FTrack) × List FOut :=
  match dets with
  | [] => (tracks, [])
  | d0 :: _ =>
    match d0.bearing_deg with
    | none => (tracks, [])
    | some bearing =>
      match find_best_track_for_rf bearing_gate_deg tracks bearing with
      | none => (tracks, [])
      | some tr0 =>
        let tr := touch_sensor tr0 "RF" "RF confirm"
        let tracks := tset tracks tr.track_id tr
        let status := if num_unique_sensors tr ≥ 2 then "CONFIRMED" else "TENTATIVE"
        let upd := FOut.trackUpdate tr.track_id status
          (tr.supporting_sensors.map Prod.fst)
        if num_unique_sensors tr ≥ 2 then
          let r : ℚ := tr.range_m.getD 0
          let vr : ℚ := tr.radial_velocity_mps.getD 0
          let closing := max 0 (-vr)
          let tti : Option ℚ := if closing > 0 then some (r / closing) else none
          let base : ℤ :=
            (if closing > 5 then 20 else 0) +
            (if r < 500 then 30 else 0) +
            (match tti with | some t => if t < 60 then 40 else 0 | none => 0)
          let score := min 100 (base + 20)
          let level := if score ≥ 80 then "HIGH" else if score ≥ 50 then "MEDIUM" else "LOW"
          (tracks, [upd, FOut.threat tr.track_id level score])
        else
          (tracks, [upd])

/-- One iteration of the fuser's stdin loop. -/
def fuse_step (bearing_gate_deg : ℚ) (tracks : List (String × FTrack)) :
    FEvent → List (String × FTrack) × List FOut
  | .radar ts dets => (dets.foldl (fun t d => radar_step t ts d) tracks, [])
  | .rf _ dets => rf_step bearing_gate_deg tracks dets
  | .other => (tracks, [])

/-- The fuser run over a whole input stream, from the empty track cache. -/
def fuse_run (bearing_gate_deg : ℚ) (evs : List FEvent) :
    List (String × FTrack) × List FOut :=
  evs.foldl
    (fun acc ev =>
      let r := fuse_step bearing_gate_deg acc.1 ev
      (r.1, acc.2 ++ r.2))
    ([], [])

/-! ## COP backend (`nizam-backend/main.py`) -/

/-- `TTL_LIVE_SEC = 5.0`: age at which a track turns STALE. -/
def TTL_LIVE_SEC : ℚ := 5

/-- `TTL_DEAD_SEC = 15.0`: age at which a track turns DEAD and is removed. -/
def TTL_DEAD_SEC : ℚ := 15

/-- `EVENTS_TAIL_MAX = 1000`: bound for the debug tail and the pause buffer. -/
def EVENTS_TAIL_MAX : Nat := 1000

/-- An event posted to `/api/ingest` (`IngestEvent.model_dump()`). -/
structure Event where
  event_type : String
  payload : Dict

/-- An event as emitted to the tail / broadcast hub (carries a `ts`). -/
structure OutEvent where
  event_type : String
  payload : Val
  ts : ℚ

/-- The ingest event re-wrapped as a payload value, as the debug tail stores
buffered events (`{"event_type": ..., "payload": evt.model_dump(), ...}`). -/
def eventVal (e : Event) : Val :=
  .vdict [("event_type", .vstr e.event_type), ("payload", .vdict e.payload)]

/-- The server's `STATE` dict. -/
structure BState where
  agents : Dict
  tracks : Dict
  threats : Dict
  events_tail : List OutEvent
  paused : Bool
  pause_started_ts : Option ℚ
  pause_accum_sec : ℚ
  buffer : List Event

/-- The initial `STATE`. -/
def initState : BState :=
  { agents := [], tracks := [], threats := [], events_tail := []
    paused := false, pause_started_ts := none, pause_accum_sec := 0
    buffer := [] }

/-- `_push_tail`: append and keep only the last `EVENTS_TAIL_MAX` entries. -/
def push_tail (tail : List OutEvent) (e : OutEvent) : List OutEvent :=
  let t := tail ++ [e]
  if t.length > EVENTS_TAIL_MAX then t.drop (t.length - EVENTS_TAIL_MAX) else t

/-- `_build_snapshot_payload`: the full snapshot dict. -/
def build_snapshot_payload (st : BState) : Val :=
  .vdict [("agents", .vdict st.agents), ("tracks", .vdict st.tracks),
          ("threats", .vdict st.threats), ("paused", .vbool st.paused)]

/-- Python `str(...)` on the payload value kinds the server handles; event
ids in this system are strings, for which this is exact. -/
def pyStr : Val → String
  | .vstr s => s
  | .vnum q => toString q
  | .vbool b => if b then "True" else "False"
  | .vnull => "None"
  | .vdict _ => "dict"

/-- Python truthiness, for `bool(payload["paused"])`. -/
def pyBool : Val → Bool
  | .vstr s => s ≠ ""
  | .vnum q => q ≠ 0
  | .vbool b => b
  | .vnull => false
  | .vdict d => !d.isEmpty

/-- `_compute_status(age_sec)`. -/
def compute_status (age_sec : ℚ) : String :=
  if age_sec ≥ TTL_DEAD_SEC then "DEAD"
  else if age_sec ≥ TTL_LIVE_SEC then "STALE"
  else "LIVE"

/-- `_normalize_track_payload`: requires `payload["id"]` (else the server
raises, modelled as `none`), shallow-merges the payload over the existing
record and forces the server fields.  Returns the id together with the
normalized track (`track["id"]` holds exactly that id string). -/
def normalize_track_payload (tracks : Dict) (payload : Dict) (now : ℚ) :
    Option (String × Dict) :=
  match dlookup payload "id" with
  | none => none
  | some idv =>
    let tid := pyStr idv
    match (dlookup tracks tid).getD (.vdict []) with
    | .vdict existing =>
      let track := dupdate existing payload
      let track := dset track "id" (.vstr tid)
      let track := dset track "last_update_ts" (.vnum now)
      let track := dset track "age_sec" (.vnum 0)
      let track := dset track "status" (.vstr "LIVE")
      some (tid, track)
    | _ => none

/-- `_apply_event_locked`: apply one event to `STATE` and emit it.  Returns
the new state and the broadcasts in order; `none` models an uncaught
exception (track/threat payload without `"id"`), which leaves `STATE`
unchanged. -/
def apply_event_locked (st : BState) (now : ℚ) (ev : Event) :
    Option (BState × List OutEvent) :=
  let payload := ev.payload
  if ev.event_type = "cop.snapshot" then
    let agents := match dlookup payload "agents" with
      | some (.vdict d) => d | _ => st.agents
    let tracks := match dlookup payload "tracks" with
      | some (.vdict d) => d | _ => st.tracks
    let threats := match dlookup payload "threats" with
      | some (.vdict d) => d | _ => st.threats
    let paused := match dlookup payload "paused" with
      | some v => pyBool v | none => st.paused
    let st := { st with agents := agents, tracks := tracks,
                        threats := threats, paused := paused }
    let out : OutEvent := ⟨"cop.snapshot", build_snapshot_payload st, now⟩
    some ({ st with events_tail := push_tail st.events_tail out }, [out])
  else if ev.event_type = "cop.track" then
    match normalize_track_payload st.tracks payload now with
    | none => none
    | some (tid, track) =>
      let st := { st with tracks := dset st.tracks tid (.vdict track) }
      let out : OutEvent := ⟨"cop.track", .vdict track, now⟩
      some ({ st with events_tail := push_tail st.events_tail out }, [out])
  else if ev.event_type = "cop.threat" then
    match dlookup payload "id" with
    | none => none
    | some idv =>
      let thid := pyStr idv
      match (dlookup st.threats thid).getD (.vdict []) with
      | .vdict existing =>
        let threat := dupdate existing payload
        let threat := dset threat "id" (.vstr thid)
        let st := { st with threats := dset st.threats thid (.vdict threat) }
        let out : OutEvent := ⟨"cop.threat", .vdict threat, now⟩
        some ({ st with events_tail := push_tail st.events_tail out }, [out])
      | _ => none
  else
    let out : OutEvent := ⟨ev.event_type, .vdict payload, now⟩
    some ({ st with events_tail := push_tail st.events_tail out }, [out])

/-- `/api/ingest`: while paused, append to the bounded buffer and record a
`cop.buffered` marker in the tail without applying or broadcasting;
otherwise apply immediately.  The `Bool` is the returned `buffered` flag. -/
def ingest (st : BState) (now : ℚ) (ev : Event) :
    Option (BState × List OutEvent × Bool) :=
  if st.paused then
    let buf := st.buffer ++ [ev]
    let buf := if buf.length > EVENTS_TAIL_MAX
      then buf.drop (buf.length - EVENTS_TAIL_MAX) else buf
    let tail := push_tail st.events_tail ⟨"cop.buffered", eventVal ev, now⟩
    some ({ st with buffer := buf, events_tail := tail }, [], true)
  else
    match apply_event_locked st now ev with
    | none => none
    | some (st', outs) => some (st', outs, false)

/-- `/api/pause` (`set_pause`).  Entering pause broadcasts a control event
and a snapshot.  Leaving pause broadcasts a control event and a snapshot,
then pops the whole buffer into a local variable and clears it — the
endpoint never applies or broadcasts the popped events (its trailing block
only reads the never-written key `"_buffer_to_process"`). -/
def set_pause (st : BState) (reqPaused : Bool) (now : ℚ) :
    BState × List OutEvent :=
  if reqPaused && !st.paused then
    let st := { st with paused := true, pause_started_ts := some now }
    let ctrl : OutEvent := ⟨"cop.control", .vdict [("paused", .vbool true)], now⟩
    let st := { st with events_tail := push_tail st.events_tail ctrl }
    let snap : OutEvent := ⟨"cop.snapshot", build_snapshot_payload st, now⟩
    let st := { st with events_tail := push_tail st.events_tail snap }
    (st, [ctrl, snap])
  else if !reqPaused && st.paused then
    let st := { st with
      paused := false
      pause_accum_sec := st.pause_accum_sec +
        (match st.pause_started_ts with | some t => now - t | none => 0)
      pause_started_ts := none }
    let ctrl : OutEvent := ⟨"cop.control", .vdict [("paused", .vbool false)], now⟩
    let st := { st with events_tail := push_tail st.events_tail ctrl }
    let snap : OutEvent := ⟨"cop.snapshot", build_snapshot_payload st, now⟩
    let st := { st with events_tail := push_tail st.events_tail snap }
    let st := { st with buffer := [] }
    (st, [ctrl, snap])
  else (st, [])

/-- Ideal Python `round` (banker's rounding, ties to even). -/
def pyRoundHalfEven (q : ℚ) : ℤ :=
  let f := ⌊q⌋
  let r := q - f
  if r < 1/2 then f
  else if r > 1/2 then f + 1
  else if Even f then f else f + 1

/-- `round(age, 3)`. -/
def round3 (q : ℚ) : ℚ := (pyRoundHalfEven (q * 1000) : ℚ) / 1000

/-- Python `new_status != old_status` where `new_status` is a `str` and
`old_status` an arbitrary stored value: unequal types compare unequal. -/
def statusNe (newStatus : String) (old : Val) : Bool :=
  match old with
  | .vstr s => newStatus ≠ s
  | _ => true

/-- What one aging tick does to one track dict:
`(updated track, status-change notification if any, reached DEAD)`. -/
structure AgedEntry where
  newVal : Val
  upd : Option OutEvent
  isDead : Bool

/-- The per-track body of `_aging_loop`: a non-numeric `last_update_ts`
counts as fresh (`last_ts = now`); a track value that is not a dict makes
the tick raise (`none`). -/
def aging_entry (now : ℚ) (tid : String) (v : Val) : Option AgedEntry :=
  match v with
  | .vdict tr =>
    let last_ts : ℚ := match dlookup tr "last_update_ts" with
      | some (.vnum q) => q
      | some (.vbool b) => if b then 1 else 0
      | _ => now
    let age := now - last_ts
    let old_status : Val := (dlookup tr "status").getD (.vstr "LIVE")
    let new_status := compute_status age
    let tr := dset tr "age_sec" (.vnum (round3 age))
    let tr := dset tr "status" (.vstr new_status)
    some
      { newVal := .vdict tr
        upd :=
          if statusNe new_status old_status then
            some ⟨"cop.track",
              .vdict [("id", .vstr tid), ("status", .vstr new_status),
                      ("age_sec", .vnum (round3 age))], now⟩
          else none
        isDead := new_status = "DEAD" }
  | _ => none

/-- One pass of `_aging_loop` over the tracks map: update every track,
collect status-change notifications in iteration order, and drop the tracks
that reached DEAD. -/
def age_tracks (now : ℚ) : Dict → Option (Dict × List OutEvent)
  | [] => some ([], [])
  | (tid, v) :: rest =>
    match aging_entry now tid v with
    | none => none
    | some e =>
      match age_tracks now rest with
      | none => none
      | some (rest', upds) =>
        some ((if e.isDead then rest' else (tid, e.newVal) :: rest'),
              e.upd.toList ++ upds)

/-- One aging tick (`_aging_loop` body): a no-op while paused; otherwise
age every track, delete the DEAD ones, and emit each collected notification
(each also lands in the debug tail via `_emit`). -/
def aging_tick (st : BState) (now : ℚ) : Option (BState × List OutEvent) :=
  if st.paused then some (st, [])
  else
    match age_tracks now st.tracks with
    | none => none
    | some (tracks', upds) =>
      some ({ st with tracks := tracks'
                      events_tail := upds.foldl push_tail st.events_tail },
            upds)

/-- The `"id"` string an aging notification is about. -/
def upd_id (u : OutEvent) : Option String :=
  match u.payload with
  | .vdict d =>
    match dlookup d "id" with
    | some (.vstr s) => some s
    | _ => none
  | _ => none

/-- The status field of the stored track `tid`, if present. -/
def trackStatus (st : BState) (tid : String) : Option Val :=
  match dlookup st.tracks tid with
  | some (.vdict d) => dlookup d "status"
  | _ => none

/-! ## Broadcast hub (`WSHub.broadcast` in `nizam-backend/main.py`;
`broadcast` in `cop/server.py` is the same loop)

A subscriber is a connection handle; `ok ws` says whether sending to `ws`
succeeds.  Each send runs under the loop's `try/except`: a failure appends
the subscriber to `dead` instead of propagating; after the loop every dead
subscriber is discarded from the registry. -/

/-- A subscriber connection handle. -/
abbrev WSClient := Nat

/-- One `ws.send_text(...)` call; `ok` is the transport outcome. -/
def send (ok : WSClient → Bool) (ws : WSClient) : Except String Unit :=
  if ok ws then .ok () else .error "send failed"

/-- `broadcast`: returns `(delivered, remaining clients)` inside the
exception monad — an uncaught exception would surface as `.error`. -/
def broadcast (clients : List WSClient) (ok : WSClient → Bool) :
    Except String (List WSClient × List WSClient) := do
  let acc ← clients.foldlM
    (fun (acc : List WSClient × List WSClient) ws =>
      match send ok ws with
      | .ok _ => pure (acc.1 ++ [ws], acc.2)
      | .error _ => pure (acc.1, acc.2 ++ [ws]))
    (([] : List WSClient), ([] : List WSClient))
  pure (acc.1, clients.filter (fun ws => !acc.2.contains ws))

/-! ## Concrete scenario data -/

/-- A minimal `cop.track` ingest event, `{"event_type": "cop.track",
"payload": {"id": "t1"}}`. -/
def trackEvent_t1 : Event := ⟨"cop.track", [("id", .vstr "t1")]⟩

/-- The normalized store record `trackEvent_t1` produces at time 0. -/
def track_t1_norm0 : Dict :=
  [("id", .vstr "t1"), ("last_update_ts", .vnum 0),
   ("age_sec", .vnum 0), ("status", .vstr "LIVE")]

/-- A `cop.track` payload with an extra kinematic field. -/
def c6_payload : Dict := [("id", .vstr "a"), ("lat", .vnum 7)]

/-- A fusion track sitting at azimuth 0°. -/
def c4_track : FTrack := { track_id := "T", az_deg := some 0 }

/-- A fusion track at azimuth 0° that has already seen one radar hit. -/
def c3_track : FTrack :=
  { track_id := "T", az_deg := some 0, supporting_sensors := [("RADAR", 1)] }

/-- The invariant of the fuser's track cache: every stored track carries
radar evidence (tracks are created only by the radar branch, which touches
the RADAR counter unconditionally). -/
def tracksWF (tracks : List (String × FTrack)) : Prop :=
  ∀ kv ∈ tracks, "RADAR" ∈ kv.2.supporting_sensors.map Prod.fst

/-! ## Helper lemmas: dict operations -/

theorem dlookup_dset_self (d : Dict) (k : String) (v : Val) :
    dlookup (dset d k v) k = some v := by
  induction d with
  | nil => simp [dset, dlookup]
  | cons hd tl ih =>
    by_cases h : hd.1 = k <;> simp [dset, dlookup, h, ih]

theorem dlookup_dset_ne (d : Dict) (k k' : String) (v : Val) (h : k' ≠ k) :
    dlookup (dset d k v) k' = dlookup d k' := by
  have h2 : ¬(k = k') := fun he => h he.symm
  induction d with
  | nil => simp [dset, dlookup, h2]
  | cons hd tl ih =>
    by_cases hk : hd.1 = k
    · subst hk
      simp [dset, dlookup, h2, fun he : hd.1 = k' => h2 he]
    · by_cases hk' : hd.1 = k' <;> simp [dset, dlookup, hk, hk', h, ih]

theorem dlookup_eq_none_of_not_mem (d : Dict) (k : String)
    (h : k ∉ dkeys d) : dlookup d k = none := by
  induction d with
  | nil => rfl
  | cons hd tl ih =>
    simp only [dkeys, List.map_cons, List.mem_cons] at h
    push_neg at h
    have h1 : ¬(hd.1 = k) := fun he => h.1 he.symm
    simp [dlookup, h1, ih (by simpa [dkeys] using h.2)]

theorem dlookup_dupdate (base upd : Dict) (k : String)
    (hnd : (dkeys upd).Nodup) :
    dlookup (dupdate base upd) k = ((dlookup upd k).or (dlookup base k)) := by
  induction upd generalizing base with
  | nil => simp [dupdate, dlookup]
  | cons hd tl ih =>
    simp only [dkeys, List.map_cons, List.nodup_cons] at hnd
    have step : dupdate base (hd :: tl) = dupdate (dset base hd.1 hd.2) tl := by
      simp [dupdate]
    rw [step, ih _ (by simpa [dkeys] using hnd.2)]
    by_cases hk : hd.1 = k
    · subst hk
      have : dlookup tl hd.1 = none :=
        dlookup_eq_none_of_not_mem _ _ (by simpa [dkeys] using hnd.1)
      simp [dlookup, this, dlookup_dset_self]
    · simp [dlookup, hk, dlookup_dset_ne _ _ _ _ (fun h => hk h.symm)]

/-! ## Helper lemmas: wrapped angles -/

theorem fmod_nonneg (a b : ℚ) (hb : 0 < b) : 0 ≤ fmod a b := by
  have h := Int.floor_le (a / b)
  have : (⌊a / b⌋ : ℚ) * b ≤ a := by
    calc (⌊a / b⌋ : ℚ) * b ≤ (a / b) * b := by
          exact mul_le_mul_of_nonneg_right h (le_of_lt hb)
      _ = a := by field_simp
  simp only [fmod]
  nlinarith

theorem fmod_lt (a b : ℚ) (hb : 0 < b) : fmod a b < b := by
  have h := Int.lt_floor_add_one (a / b)
  have : a < ((⌊a / b⌋ : ℚ) + 1) * b := by
    calc a = (a / b) * b := by field_simp
      _ < ((⌊a / b⌋ : ℚ) + 1) * b := by
          exact mul_lt_mul_of_pos_right h hb
  simp only [fmod]
  nlinarith

theorem wrap_deg_mem (a : ℚ) : -180 ≤ wrap_deg a ∧ wrap_deg a < 180 := by
  have h1 := fmod_nonneg (a + 180) 360 (by norm_num)
  have h2 := fmod_lt (a + 180) 360 (by norm_num)
  constructor <;> [skip; skip] <;> simp only [wrap_deg] <;> linarith

theorem ang_diff_deg_nonneg (a b : ℚ) : 0 ≤ ang_diff_deg a b := abs_nonneg _

theorem ang_diff_deg_le (a b : ℚ) : ang_diff_deg a b ≤ 180 := by
  have h := wrap_deg_mem (a - b)
  simp only [ang_diff_deg]
  rw [abs_le]
  exact ⟨by linarith [h.1], by linarith [h.2]⟩

/-! ## Claim C5: radar track identity bucketing -/

/-- C5 counterexample: `make_track_id` does not wrap the azimuth, so the
equivalent headings 350° and −10° land in different buckets and yield
different track identities, contrary to the claim. -/
theorem make_track_id_wrap_counterexample :
    make_track_id 100 350 ≠ make_track_id 100 (-10) := by
  have h1 : ⌊(100 : ℚ) / 100⌋ = 1 := by norm_num
  have h2 : ⌊((350 : ℚ) + 180) / 10⌋ = 53 := by norm_num
  have h3 : ⌊((-10 : ℚ) + 180) / 10⌋ = 17 := by norm_num
  simp only [make_track_id, h1, h2, h3]
  decide

/-- C5 (amended): the track identity is the bucket key quantizing range to
100 m bins and `azimuth + 180°` to 10° bins, with no wrapping of the
azimuth; `make_track_id` is a pure deterministic function of the bucket:
any two detections in the same range/azimuth bucket produce the same track
identity (but azimuths differing by a full turn, such as 350° and −10°, are
distinct buckets). -/
theorem make_track_id_bucket_deterministic (r1 az1 r2 az2 : ℚ)
    (hr : ⌊r1 / 100⌋ = ⌊r2 / 100⌋)
    (ha : ⌊(az1 + 180) / 10⌋ = ⌊(az2 + 180) / 10⌋) :
    make_track_id r1 az1 = make_track_id r2 az2 := by
  simp [make_track_id, hr, ha]

/-- C5 witness: detections (100 m, 0°) and (150 m, 5°) share the bucket and
receive the same identity. -/
theorem make_track_id_bucket_witness :
    ⌊(100 : ℚ) / 100⌋ = ⌊(150 : ℚ) / 100⌋ ∧
    ⌊((0 : ℚ) + 180) / 10⌋ = ⌊((5 : ℚ) + 180) / 10⌋ ∧
    make_track_id 100 0 = make_track_id 150 5 :=
  ⟨by norm_num, by norm_num,
    make_track_id_bucket_deterministic 100 0 150 5 (by norm_num) (by norm_num)⟩

/-! ## Claim C8: v0 threat score shape and monotonicity -/

theorem threatScore_eq (r v : ℚ) :
    threatScore r v =
      (if closingSpeed v > 5 then (20 : ℤ) else 0) +
      (if closingSpeed v > 0 ∧ r / closingSpeed v < 60 then 40 else 0) +
      (if r < 500 then 30 else 0) := by
  simp only [threatScore, score_and_assess, closingSpeed]
  by_cases h2 : max 0 (-v) > 0
  · by_cases h1 : max 0 (-v) > 5 <;>
      by_cases h3 : r / max 0 (-v) < 60 <;>
        by_cases h4 : r < 500 <;>
          simp only [h1, h2, h3, h4, if_true, if_false, and_true, and_false,
            true_and, false_and, if_pos, if_neg, not_false_iff] <;>
          norm_num [h1, h2, h3, h4]
  · have h1 : ¬ (max 0 (-v) > 5) := fun h => h2 (lt_trans (by norm_num) h)
    by_cases h4 : r < 500 <;>
      simp [h1, h2, h4]

/-- C8: the v0 threat score (`score_and_assess`) is monotonically
non-decreasing in closing speed at fixed range, monotonically non-increasing
in range at fixed closing speed (non-negative ranges, all radial
velocities), and equals the sum of the +20 approaching, +40 TTI and +30
close-range rules, clamped to `[0, 100]` (the clamp is vacuous: the sum
never leaves `[0, 90]`). -/
theorem threat_score_monotone_and_shape :
    (∀ r v1 v2 : ℚ, 0 ≤ r → closingSpeed v1 ≤ closingSpeed v2 →
      threatScore r v1 ≤ threatScore r v2) ∧
    (∀ v r1 r2 : ℚ, 0 ≤ r1 → r1 ≤ r2 →
      threatScore r2 v ≤ threatScore r1 v) ∧
    (∀ r v : ℚ, threatScore r v =
      min 100 (max 0
        ((if closingSpeed v > 5 then (20 : ℤ) else 0) +
         (if closingSpeed v > 0 ∧ r / closingSpeed v < 60 then 40 else 0) +
         (if r < 500 then 30 else 0)))) := by
  refine ⟨?_, ?_, ?_⟩
  · intro r v1 v2 hr hc
    rw [threatScore_eq, threatScore_eq]
    have h1 : (if closingSpeed v1 > 5 then (20 : ℤ) else 0) ≤
        (if closingSpeed v2 > 5 then 20 else 0) := by
      by_cases h : closingSpeed v1 > 5
      · simp [h, lt_of_lt_of_le h hc]
      · by_cases h' : closingSpeed v2 > 5 <;> simp [h, h']
    have h2 : (if closingSpeed v1 > 0 ∧ r / closingSpeed v1 < 60 then (40 : ℤ) else 0) ≤
        (if closingSpeed v2 > 0 ∧ r / closingSpeed v2 < 60 then 40 else 0) := by
      by_cases h : closingSpeed v1 > 0 ∧ r / closingSpeed v1 < 60
      · have hp2 : closingSpeed v2 > 0 := lt_of_lt_of_le h.1 hc
        have hlt1 : r < 60 * closingSpeed v1 := (div_lt_iff₀ h.1).mp h.2
        have hlt2 : r / closingSpeed v2 < 60 := by
          rw [div_lt_iff₀ hp2]
          nlinarith [h.1, hc]
        simp [h, hp2, hlt2]
      · rw [if_neg h]
        split <;> norm_num
    exact add_le_add (add_le_add h1 h2) le_rfl
  · intro v r1 r2 hr1 hr12
    rw [threatScore_eq, threatScore_eq]
    have h2 : (if closingSpeed v > 0 ∧ r2 / closingSpeed v < 60 then (40 : ℤ) else 0) ≤
        (if closingSpeed v > 0 ∧ r1 / closingSpeed v < 60 then 40 else 0) := by
      by_cases h : closingSpeed v > 0 ∧ r2 / closingSpeed v < 60
      · have hlt : r1 / closingSpeed v < 60 := by
          rw [div_lt_iff₀ h.1]
          have := (div_lt_iff₀ h.1).mp h.2
          linarith
        simp [h, h.1, hlt]
      · rw [if_neg h]
        split <;> norm_num
    have h3 : (if r2 < 500 then (30 : ℤ) else 0) ≤ (if r1 < 500 then 30 else 0) := by
      by_cases h : r2 < 500
      · simp [h, lt_of_le_of_lt hr12 h]
      · by_cases h' : r1 < 500 <;> simp [h, h']
    exact add_le_add (add_le_add le_rfl h2) h3
  · intro r v
    rw [threatScore_eq]
    by_cases h1 : closingSpeed v > 5 <;>
      by_cases h2 : closingSpeed v > 0 ∧ r / closingSpeed v < 60 <;>
        by_cases h3 : r < 500 <;> simp [h1, h2, h3]

/-- C8 witness: at range 400 m and radial velocity −10 m/s the closing speed
is 10 m/s, and the monotonicity facts and the clamped-sum shape instantiate
concretely (score 90). -/
theorem threat_score_witness :
    (0 : ℚ) ≤ 400 ∧ closingSpeed 0 ≤ closingSpeed (-10) ∧
    threatScore 400 0 ≤ threatScore 400 (-10) ∧
    threatScore 400 (-10) ≤ threatScore 300 (-10) ∧
    threatScore 400 (-10) = 90 := by
  refine ⟨by norm_num, ?_, ?_, ?_, ?_⟩
  · show max 0 (-(0:ℚ)) ≤ max 0 (-(-10:ℚ))
    norm_num
  · exact threat_score_monotone_and_shape.1 400 0 (-10) (by norm_num)
      (by show max 0 (-(0:ℚ)) ≤ max 0 (-(-10:ℚ)); norm_num)
  · exact threat_score_monotone_and_shape.2.1 (-10) 300 400 (by norm_num)
      (by norm_num)
  · rw [threatScore_eq]
    have hc : closingSpeed (-10) = 10 := by
      show max 0 (-(-10:ℚ)) = 10
      norm_num
    rw [hc]
    norm_num

/-! ## Claim C9: best-effort broadcast fan-out -/

theorem broadcast_foldlM_eq (ok : WSClient → Bool) (l : List WSClient)
    (acc : List WSClient × List WSClient) :
    (l.foldlM
      (fun (acc : List WSClient × List WSClient) ws =>
        match send ok ws with
        | .ok _ => pure (acc.1 ++ [ws], acc.2)
        | .error _ => pure (acc.1, acc.2 ++ [ws]))
      acc : Except String (List WSClient × List WSClient)) =
    Except.ok (acc.1 ++ l.filter ok, acc.2 ++ l.filter (fun ws => !ok ws)) := by
  induction l generalizing acc with
  | nil =>
    simp only [List.foldlM, List.filter_nil, List.append_nil]
    rfl

  | cons hd tl ih =>
    rw [List.foldlM_cons]
    by_cases h : ok hd
    · have hstep : (match send ok hd with
        | .ok _ => pure (acc.1 ++ [hd], acc.2)
        | .error _ => pure (acc.1, acc.2 ++ [hd]) :
          Except String (List WSClient × List WSClient))
          = pure (acc.1 ++ [hd], acc.2) := by simp [send, h]
      rw [hstep, pure_bind, ih]
      simp [List.filter_cons, h]
    · have hstep : (match send ok hd with
        | .ok _ => pure (acc.1 ++ [hd], acc.2)
        | .error _ => pure (acc.1, acc.2 ++ [hd]) :
          Except String (List WSClient × List WSClient))
          = pure (acc.1, acc.2 ++ [hd]) := by simp [send, h]
      rw [hstep, pure_bind, ih]
      simp [List.filter_cons, h]

/-- C9: the broadcast loop never raises to its caller (it always returns
`.ok`): every subscriber whose send succeeds receives the event, and the
registry afterwards holds exactly the subscribers whose send did not fail —
one subscriber's failure removes only that subscriber and does not affect
delivery to the others. -/
theorem broadcast_best_effort (clients : List WSClient) (ok : WSClient → Bool) :
    ∃ delivered remaining,
      broadcast clients ok = .ok (delivered, remaining) ∧
      (∀ ws, ws ∈ delivered ↔ ws ∈ clients ∧ ok ws = true) ∧
      (∀ ws, ws ∈ remaining ↔ ws ∈ clients ∧ ok ws = true) := by
  have hbc : broadcast clients ok = Except.ok
      (clients.filter ok,
        clients.filter (fun ws => !(clients.filter (fun w => !ok w)).contains ws)) := by
    unfold broadcast
    rw [broadcast_foldlM_eq]
    simp
  refine ⟨_, _, hbc, ?_, ?_⟩
  · intro ws
    simp [List.mem_filter]
  · intro ws
    rw [List.mem_filter]
    constructor
    · rintro ⟨h1, h2⟩
      refine ⟨h1, ?_⟩
      by_contra hf
      have hmem : ws ∈ clients.filter (fun w => !ok w) :=
        List.mem_filter.mpr ⟨h1, by simp [hf]⟩
      simp [List.elem_iff, hmem] at h2
    · rintro ⟨h1, h2⟩
      refine ⟨h1, ?_⟩
      have hnm : ws ∉ clients.filter (fun w => !ok w) := by
        intro hm
        have := (List.mem_filter.mp hm).2
        simp [h2] at this
      simp [List.elem_iff, hnm]

/-- C9 witness: with subscribers `[1, 2, 3]` and the send to `2` failing,
the broadcast returns `.ok`, `1` is delivered, and `2` is removed while `3`
remains. -/
theorem broadcast_best_effort_witness :
    ∃ delivered remaining,
      broadcast [1, 2, 3] (fun ws => ws ≠ 2) = .ok (delivered, remaining) ∧
      1 ∈ delivered ∧ 2 ∉ remaining ∧ 3 ∈ remaining := by
  obtain ⟨d, r, heq, hdel, hrem⟩ :=
    broadcast_best_effort [1, 2, 3] (fun ws => ws ≠ 2)
  refine ⟨d, r, heq, ?_, ?_, ?_⟩
  · exact (hdel 1).mpr ⟨by simp, by decide⟩
  · intro h
    have := (hrem 2).mp h
    simp at this
  · exact (hrem 3).mpr ⟨by simp, by decide⟩

/-! ## Helper lemmas: pause/resume and the aging tick -/

theorem aging_tick_of_paused (st : BState) (now : ℚ) (h : st.paused = true) :
    aging_tick st now = some (st, []) := by
  simp [aging_tick, h]

theorem set_pause_enter (st : BState) (now : ℚ) (h : st.paused = false) :
    (set_pause st true now).1.paused = true ∧
    (set_pause st true now).1.tracks = st.tracks ∧
    (set_pause st true now).1.buffer = st.buffer := by
  simp [set_pause, h]

theorem set_pause_exit (st : BState) (now : ℚ) (h : st.paused = true) :
    (set_pause st false now).1.paused = false ∧
    (set_pause st false now).1.tracks = st.tracks ∧
    (set_pause st false now).1.buffer = [] := by
  simp [set_pause, h]

/-! ## Claim C7: the aging tick while paused, and pause time -/

/-- C7 (amended): while the controller is paused, every aging tick is a
no-op on the store — the state (tracks, statuses, ages, tail) is unchanged
and no status-changed notification is emitted.  (The original claim's
further consequence — that time spent paused never contributes to the age
used after resume — is refuted by `aging_counts_paused_time`.) -/
theorem aging_tick_paused_noop (st : BState) (now : ℚ) (h : st.paused = true) :
    aging_tick st now = some (st, []) := by
  simp [aging_tick, h]

/-- C7 witness: a concrete paused store with one track is untouched by a
tick at time 99. -/
theorem aging_tick_paused_noop_witness :
    ({ initState with
        paused := true
        tracks := [("t1", .vdict track_t1_norm0)] } : BState).paused = true ∧
    aging_tick
      { initState with
        paused := true
        tracks := [("t1", .vdict track_t1_norm0)] } 99 =
    some ({ initState with
            paused := true
            tracks := [("t1", .vdict track_t1_norm0)] }, []) :=
  ⟨rfl, aging_tick_paused_noop _ 99 rfl⟩

/-- C7 counterexample: pause time does contribute to the age used after
resume.  A track ingested at `t = 0`, paused from `t = 1` to `t = 11`
(tick at `t = 6` is a no-op), is aged at `t = 12` with
`age = now − last_update_ts = 12` and turns STALE — although only 2 seconds
of unpaused time have elapsed, and `compute_status 2 = "LIVE"`.  The aging
loop never subtracts the accumulated pause time. -/
theorem aging_counts_paused_time :
    ∃ st1 out1 stD upds,
      apply_event_locked initState 0 trackEvent_t1 = some (st1, out1) ∧
      aging_tick (set_pause st1 true 1).1 6 = some ((set_pause st1 true 1).1, []) ∧
      aging_tick (set_pause (set_pause st1 true 1).1 false 11).1 12 =
        some (stD, upds) ∧
      trackStatus stD "t1" = some (.vstr "STALE") ∧
      compute_status (12 - 11 + (1 - 0)) = "LIVE" := by
  have h1 : apply_event_locked initState 0 trackEvent_t1 =
      some ({ initState with
               tracks := [("t1", .vdict track_t1_norm0)]
               events_tail := [⟨"cop.track", .vdict track_t1_norm0, 0⟩] },
            [⟨"cop.track", .vdict track_t1_norm0, 0⟩]) := by
    simp [apply_event_locked, trackEvent_t1, normalize_track_payload, dlookup,
      pyStr, dupdate, dset, initState, push_tail, EVENTS_TAIL_MAX, track_t1_norm0]
  set st1 : BState := { initState with
               tracks := [("t1", .vdict track_t1_norm0)]
               events_tail := [⟨"cop.track", .vdict track_t1_norm0, 0⟩] } with hst1
  have hp1 : st1.paused = false := rfl
  obtain ⟨h2p, h2t, -⟩ := set_pause_enter st1 1 hp1
  obtain ⟨h3p, h3t, -⟩ := set_pause_exit (set_pause st1 true 1).1 11 h2p
  have hst1t : st1.tracks = [("t1", .vdict track_t1_norm0)] := rfl
  have hcs : compute_status (12 : ℚ) = "STALE" := by
    simp [compute_status, TTL_DEAD_SEC, TTL_LIVE_SEC]
    norm_num
  have hr3 : round3 (12 : ℚ) = 12 := by
    simp [round3, pyRoundHalfEven]
    norm_num
  have hat : age_tracks 12 [("t1", Val.vdict track_t1_norm0)] =
      some ([("t1", Val.vdict (dset (dset track_t1_norm0 "age_sec" (.vnum 12))
               "status" (.vstr "STALE")))],
            [⟨"cop.track", .vdict [("id", .vstr "t1"), ("status", .vstr "STALE"),
               ("age_sec", .vnum 12)], 12⟩]) := by
    simp [age_tracks, aging_entry, dlookup, track_t1_norm0, hcs, hr3, statusNe]
  have hag : aging_tick (set_pause (set_pause st1 true 1).1 false 11).1 12 =
      some ({ (set_pause (set_pause st1 true 1).1 false 11).1 with
                tracks := [("t1", Val.vdict (dset (dset track_t1_norm0 "age_sec"
                  (.vnum 12)) "status" (.vstr "STALE")))]
                events_tail := push_tail
                  (set_pause (set_pause st1 true 1).1 false 11).1.events_tail
                  ⟨"cop.track", .vdict [("id", .vstr "t1"), ("status", .vstr "STALE"),
                    ("age_sec", .vnum 12)], 12⟩ },
            [⟨"cop.track", .vdict [("id", .vstr "t1"), ("status", .vstr "STALE"),
               ("age_sec", .vnum 12)], 12⟩]) := by
    simp only [aging_tick]
    rw [h3p]
    simp only [Bool.false_eq_true, if_false]
    rw [h3t, h2t, hst1t, hat]
    simp [List.foldl]
  refine ⟨st1, _, _, _, h1, ?_, hag, ?_, ?_⟩
  · rw [aging_tick_of_paused _ _ h2p]
  · simp [trackStatus, dlookup, dset]
  · have h2 : (12 : ℚ) - 11 + (1 - 0) = 2 := by norm_num
    rw [h2]
    simp [compute_status, TTL_DEAD_SEC, TTL_LIVE_SEC]
    norm_num

/-! ## Claim C1: resume is supposed to drain the pause buffer -/

/-- C1: leaving PAUSED through `/api/pause` broadcasts the control event and
the snapshot, but then discards every buffered event: after pausing at
`t = 1`, ingesting one `cop.track` event at `t = 2` (acknowledged as
buffered), and resuming at `t = 3`, the buffer is empty, the store has no
track `"t1"`, and the resume broadcasts contain no `cop.track` event — the
buffered event was neither applied nor broadcast, contradicting the claim
(and the endpoint's own comment; `_drain_buffer_after_resume` is never
called). -/
theorem resume_discards_buffer :
    ∃ stB stR outsR,
      ingest (set_pause initState true 1).1 2 trackEvent_t1 =
        some (stB, [], true) ∧
      stB.buffer = [trackEvent_t1] ∧
      set_pause stB false 3 = (stR, outsR) ∧
      stR.buffer = [] ∧
      dlookup stR.tracks "t1" = none ∧
      outsR.map OutEvent.event_type = ["cop.control", "cop.snapshot"] := by
  refine ⟨_, _, _, rfl, rfl, rfl, rfl, rfl, rfl⟩

/-! ## Claim C6: idempotence of cop.track application -/

theorem dlookup_norm_track (ex payload : Dict) (tid : String) (now : ℚ) (k : String)
    (hnd : (dkeys payload).Nodup) :
    dlookup (dset (dset (dset (dset (dupdate ex payload) "id" (.vstr tid))
      "last_update_ts" (.vnum now)) "age_sec" (.vnum 0)) "status" (.vstr "LIVE")) k =
    (if k = "status" then some (.vstr "LIVE")
    else if k = "age_sec" then some (.vnum 0)
    else if k = "last_update_ts" then some (.vnum now)
    else if k = "id" then some (.vstr tid)
    else (dlookup payload k).or (dlookup ex k)) := by
  by_cases h1 : k = "status"
  · subst h1
    simp [dlookup_dset_self]
  · rw [dlookup_dset_ne _ _ _ _ h1, if_neg h1]
    by_cases h2 : k = "age_sec"
    · subst h2
      simp [dlookup_dset_self]
    · rw [dlookup_dset_ne _ _ _ _ h2, if_neg h2]
      by_cases h3 : k = "last_update_ts"
      · subst h3
        simp [dlookup_dset_self]
      · rw [dlookup_dset_ne _ _ _ _ h3, if_neg h3]
        by_cases h4 : k = "id"
        · subst h4
          simp [dlookup_dset_self]
        · rw [dlookup_dset_ne _ _ _ _ h4, if_neg h4]
          exact dlookup_dupdate ex payload k hnd

theorem apply_track_eq (st : BState) (now : ℚ) (payload : Dict) (idv : Val)
    (ex : Dict)
    (hid : dlookup payload "id" = some idv)
    (hex : (dlookup st.tracks (pyStr idv)).getD (.vdict []) = .vdict ex) :
    apply_event_locked st now ⟨"cop.track", payload⟩ =
      some ({ st with
        tracks := dset st.tracks (pyStr idv)
          (.vdict (dset (dset (dset (dset (dupdate ex payload) "id"
            (.vstr (pyStr idv))) "last_update_ts" (.vnum now)) "age_sec"
            (.vnum 0)) "status" (.vstr "LIVE")))
        events_tail := push_tail st.events_tail
          ⟨"cop.track", .vdict (dset (dset (dset (dset (dupdate ex payload) "id"
            (.vstr (pyStr idv))) "last_update_ts" (.vnum now)) "age_sec"
            (.vnum 0)) "status" (.vstr "LIVE")), now⟩ },
        [⟨"cop.track", .vdict (dset (dset (dset (dset (dupdate ex payload) "id"
            (.vstr (pyStr idv))) "last_update_ts" (.vnum now)) "age_sec"
            (.vnum 0)) "status" (.vstr "LIVE")), now⟩]) := by
  simp only [apply_event_locked, normalize_track_payload, hid, hex]
  simp

/-- C6: applying the same `cop.track` event twice in immediate succession
is idempotent up to timestamps.  For a payload containing `"id"` (and, as in
any JSON object, no duplicate keys), when the existing entry is a dict (or
absent, giving `{}`), both applications succeed; the entry after the second
application agrees with the entry after the first on every field except
`last_update_ts` and `age_sec`; each application forces
`last_update_ts = now`, `age_sec = 0`, `status = "LIVE"`; and the first
application shallow-merges: on every non-forced field the payload value
wins and fields absent from the payload keep their existing value. -/
theorem cop_track_idempotent (st : BState) (payload : Dict) (idv : Val)
    (ex : Dict) (now1 now2 : ℚ)
    (hid : dlookup payload "id" = some idv)
    (hnd : (dkeys payload).Nodup)
    (hex : (dlookup st.tracks (pyStr idv)).getD (.vdict []) = .vdict ex)
    (st1 st2 : BState) (o1 o2 : List OutEvent)
    (h1 : apply_event_locked st now1 ⟨"cop.track", payload⟩ = some (st1, o1))
    (h2 : apply_event_locked st1 now2 ⟨"cop.track", payload⟩ = some (st2, o2)) :
    ∃ t1 t2 : Dict,
      dlookup st1.tracks (pyStr idv) = some (.vdict t1) ∧
      dlookup st2.tracks (pyStr idv) = some (.vdict t2) ∧
      (∀ k, k ≠ "last_update_ts" → k ≠ "age_sec" → dlookup t2 k = dlookup t1 k) ∧
      dlookup t1 "last_update_ts" = some (.vnum now1) ∧
      dlookup t1 "age_sec" = some (.vnum 0) ∧
      dlookup t1 "status" = some (.vstr "LIVE") ∧
      dlookup t2 "last_update_ts" = some (.vnum now2) ∧
      dlookup t2 "age_sec" = some (.vnum 0) ∧
      dlookup t2 "status" = some (.vstr "LIVE") ∧
      (∀ k, k ≠ "id" → k ≠ "last_update_ts" → k ≠ "age_sec" → k ≠ "status" →
        dlookup t1 k = (dlookup payload k).or (dlookup ex k)) := by
  have happ1 := apply_track_eq st now1 payload idv ex hid hex
  rw [happ1] at h1
  simp only [Option.some.injEq, Prod.mk.injEq] at h1
  obtain ⟨hst1, -⟩ := h1
  set t1 : Dict := dset (dset (dset (dset (dupdate ex payload) "id"
    (.vstr (pyStr idv))) "last_update_ts" (.vnum now1)) "age_sec"
    (.vnum 0)) "status" (.vstr "LIVE") with ht1
  have hlk1 : dlookup st1.tracks (pyStr idv) = some (.vdict t1) := by
    rw [← hst1]
    exact dlookup_dset_self _ _ _
  have hex2 : (dlookup st1.tracks (pyStr idv)).getD (.vdict []) = .vdict t1 := by
    rw [hlk1]
    rfl
  have happ2 := apply_track_eq st1 now2 payload idv t1 hid hex2
  rw [happ2] at h2
  simp only [Option.some.injEq, Prod.mk.injEq] at h2
  obtain ⟨hst2, -⟩ := h2
  set t2 : Dict := dset (dset (dset (dset (dupdate t1 payload) "id"
    (.vstr (pyStr idv))) "last_update_ts" (.vnum now2)) "age_sec"
    (.vnum 0)) "status" (.vstr "LIVE") with ht2
  have hlk2 : dlookup st2.tracks (pyStr idv) = some (.vdict t2) := by
    rw [← hst2]
    exact dlookup_dset_self _ _ _
  have hn1 := fun k => dlookup_norm_track ex payload (pyStr idv) now1 k hnd
  have hn2 := fun k => dlookup_norm_track t1 payload (pyStr idv) now2 k hnd
  refine ⟨t1, t2, hlk1, hlk2, ?_, ?_, ?_, ?_, ?_, ?_, ?_, ?_⟩
  · intro k hk1 hk2
    rw [ht1, ht2, hn1 k, hn2 k]
    by_cases h1 : k = "status"
    · simp [h1]
    · by_cases h4 : k = "id"
      · simp [h4, hk1, hk2, h1]
      · simp only [if_neg h1, if_neg hk2, if_neg hk1, if_neg h4]
        cases hpk : dlookup payload k with
        | none =>
          simp only [Option.or, ht1, hn1 k]
          simp [h1, hk1, hk2, h4, hpk]
        | some v => simp [Option.or, hpk]
  · rw [ht1, hn1]
    simp
  · rw [ht1, hn1]
    simp
  · rw [ht1, hn1]
    simp
  · rw [ht2, hn2]
    simp
  · rw [ht2, hn2]
    simp
  · rw [ht2, hn2]
    simp
  · intro k h4 h3 h2' h1'
    rw [ht1, hn1 k]
    simp [h1', h2', h3, h4]

/-- C6 witness: the payload `{"id": "a", "lat": 7}` applied twice to the
empty store at times 5 and 9. -/
theorem cop_track_idempotent_witness :
    ∃ st1 o1 st2 o2,
      apply_event_locked initState 5 ⟨"cop.track", c6_payload⟩ = some (st1, o1) ∧
      apply_event_locked st1 9 ⟨"cop.track", c6_payload⟩ = some (st2, o2) ∧
      ∃ t1 t2 : Dict,
        dlookup st1.tracks (pyStr (.vstr "a")) = some (.vdict t1) ∧
        dlookup st2.tracks (pyStr (.vstr "a")) = some (.vdict t2) ∧
        (∀ k, k ≠ "last_update_ts" → k ≠ "age_sec" → dlookup t2 k = dlookup t1 k) ∧
        dlookup t1 "last_update_ts" = some (.vnum 5) ∧
        dlookup t1 "age_sec" = some (.vnum 0) ∧
        dlookup t1 "status" = some (.vstr "LIVE") ∧
        dlookup t2 "last_update_ts" = some (.vnum 9) ∧
        dlookup t2 "age_sec" = some (.vnum 0) ∧
        dlookup t2 "status" = some (.vstr "LIVE") ∧
        (∀ k, k ≠ "id" → k ≠ "last_update_ts" → k ≠ "age_sec" → k ≠ "status" →
          dlookup t1 k = (dlookup c6_payload k).or (dlookup ([] : Dict) k)) := by
  refine ⟨_, _, _, _, rfl, rfl, ?_⟩
  exact cop_track_idempotent initState c6_payload (.vstr "a") [] 5 9 rfl
    (by decide) rfl _ _ _ _ rfl rfl

/-! ## Claim C2: track lifecycle on an aging tick -/

theorem compute_status_iff (age : ℚ) :
    (compute_status age = "DEAD" ↔ age ≥ TTL_DEAD_SEC) ∧
    (compute_status age = "STALE" ↔ age < TTL_DEAD_SEC ∧ age ≥ TTL_LIVE_SEC) ∧
    (compute_status age = "LIVE" ↔ age < TTL_LIVE_SEC) := by
  have h515 : TTL_LIVE_SEC < TTL_DEAD_SEC := by norm_num [TTL_LIVE_SEC, TTL_DEAD_SEC]
  unfold compute_status
  split_ifs with h1 h2
  · have hx : ¬ age < TTL_DEAD_SEC := not_lt.mpr h1
    have hy : ¬ age < TTL_LIVE_SEC := not_lt.mpr (le_trans (le_of_lt h515) h1)
    refine ⟨?_, ?_, ?_⟩ <;> simp_all
  · have hx : age < TTL_DEAD_SEC := lt_of_not_le h1
    have hy : ¬ age < TTL_LIVE_SEC := not_lt.mpr h2
    refine ⟨?_, ?_, ?_⟩ <;> simp_all
  · have hx : age < TTL_LIVE_SEC := lt_of_not_le h2
    have hy : age < TTL_DEAD_SEC := lt_trans hx h515
    have hz : ¬ age ≥ TTL_DEAD_SEC := not_le.mpr hy
    refine ⟨?_, ?_, ?_⟩ <;> simp_all

theorem aging_entry_eq (now : ℚ) (tid : String) (tr : Dict) (ts : ℚ)
    (hts : dlookup tr "last_update_ts" = some (.vnum ts)) :
    aging_entry now tid (.vdict tr) = some
      { newVal := .vdict (dset (dset tr "age_sec" (.vnum (round3 (now - ts))))
          "status" (.vstr (compute_status (now - ts))))
        upd := if statusNe (compute_status (now - ts))
            ((dlookup tr "status").getD (.vstr "LIVE")) then
            some ⟨"cop.track", .vdict [("id", .vstr tid),
              ("status", .vstr (compute_status (now - ts))),
              ("age_sec", .vnum (round3 (now - ts)))], now⟩
          else none
        isDead := compute_status (now - ts) = "DEAD" } := by
  simp [aging_entry, hts]

theorem aging_entry_upd_id (now : ℚ) (k : String) (v : Val) (e : AgedEntry)
    (u : OutEvent) (he : aging_entry now k v = some e) (hu : e.upd = some u) :
    upd_id u = some k := by
  cases v with
  | vdict d =>
    simp only [aging_entry, Option.some.injEq] at he
    rw [← he] at hu
    simp only at hu
    split at hu
    · simp only [Option.some.injEq] at hu
      rw [← hu]
      simp [upd_id, dlookup]
    · exact absurd hu (by simp)
  | vstr s => simp [aging_entry] at he
  | vnum q => simp [aging_entry] at he
  | vbool b => simp [aging_entry] at he
  | vnull => simp [aging_entry] at he

theorem age_tracks_keys (now : ℚ) (l : List (String × Val)) :
    ∀ (l' : List (String × Val)) (upds : List OutEvent),
      age_tracks now l = some (l', upds) →
      ∀ k, k ∈ l'.map Prod.fst → k ∈ l.map Prod.fst := by
  induction l with
  | nil =>
    intro l' upds h k hk
    simp [age_tracks] at h
    rw [h.1] at hk
    simp at hk
  | cons hd tl ih =>
    intro l' upds h k hk
    rw [age_tracks] at h
    cases he : aging_entry now hd.1 hd.2 with
    | none => rw [he] at h; simp at h
    | some e =>
      rw [he] at h
      cases hrest : age_tracks now tl with
      | none => rw [hrest] at h; simp at h
      | some p =>
        obtain ⟨trs, us⟩ := p
        rw [hrest] at h
        simp only [Option.some.injEq, Prod.mk.injEq] at h
        obtain ⟨h1, -⟩ := h
        rw [← h1] at hk
        by_cases hdead : e.isDead
        · simp only [hdead, if_true] at hk
          exact List.mem_cons_of_mem _ (ih trs us hrest k hk)
        · simp only [Bool.not_eq_true] at hdead
          simp only [hdead, Bool.false_eq_true, if_false, List.map_cons,
            List.mem_cons] at hk
          rcases hk with hk | hk
          · simp [hk]
          · exact List.mem_cons_of_mem _ (ih trs us hrest k hk)

theorem age_tracks_upd_ids (now : ℚ) (l : List (String × Val)) :
    ∀ (l' : List (String × Val)) (upds : List OutEvent),
      age_tracks now l = some (l', upds) →
      ∀ u ∈ upds, ∃ k, k ∈ l.map Prod.fst ∧ upd_id u = some k := by
  induction l with
  | nil =>
    intro l' upds h u hu
    simp [age_tracks] at h
    rw [h.2] at hu
    simp at hu
  | cons hd tl ih =>
    intro l' upds h u hu
    rw [age_tracks] at h
    cases he : aging_entry now hd.1 hd.2 with
    | none => rw [he] at h; simp at h
    | some e =>
      rw [he] at h
      cases hrest : age_tracks now tl with
      | none => rw [hrest] at h; simp at h
      | some p =>
        obtain ⟨trs, us⟩ := p
        rw [hrest] at h
        simp only [Option.some.injEq, Prod.mk.injEq] at h
        obtain ⟨-, h2⟩ := h
        rw [← h2] at hu
        rcases List.mem_append.mp hu with hu1 | hu2
        · cases heu : e.upd with
          | none => rw [heu] at hu1; simp at hu1
          | some u0 =>
            rw [heu] at hu1
            simp only [Option.toList_some, List.mem_singleton] at hu1
            rw [hu1]
            exact ⟨hd.1, by simp, aging_entry_upd_id now hd.1 hd.2 e u0 he heu⟩
        · obtain ⟨k, hk, hid⟩ := ih trs us hrest u hu2
          exact ⟨k, List.mem_cons_of_mem _ hk, hid⟩

theorem age_tracks_spec (now : ℚ) (tid : String) (tr : Dict) (ts : ℚ)
    (hts : dlookup tr "last_update_ts" = some (.vnum ts)) :
    ∀ (l l' : List (String × Val)) (upds : List OutEvent),
      (l.map Prod.fst).Nodup →
      dlookup l tid = some (.vdict tr) →
      age_tracks now l = some (l', upds) →
      (dlookup l' tid = (if compute_status (now - ts) = "DEAD" then none
        else some (.vdict (dset (dset tr "age_sec" (.vnum (round3 (now - ts))))
          "status" (.vstr (compute_status (now - ts))))))) ∧
      (upds.filter (fun u => upd_id u == some tid)).length =
        (if statusNe (compute_status (now - ts))
            ((dlookup tr "status").getD (.vstr "LIVE")) then 1 else 0) := by
  intro l
  induction l with
  | nil =>
    intro l' upds hnd hlk h
    simp [dlookup] at hlk
  | cons hd tl ih =>
    intro l' upds hnd hlk h
    rw [age_tracks] at h
    simp only [List.map_cons, List.nodup_cons] at hnd
    by_cases hhd : hd.1 = tid
    · -- the head is tid's entry
      rw [dlookup, if_pos hhd] at hlk
      simp only [Option.some.injEq] at hlk
      rw [hlk] at h
      rw [aging_entry_eq now hd.1 tr ts hts] at h
      cases hrest : age_tracks now tl with
      | none => rw [hrest] at h; simp at h
      | some p =>
        obtain ⟨trs, us⟩ := p
        rw [hrest] at h
        simp only [Option.some.injEq, Prod.mk.injEq] at h
        obtain ⟨h1, h2⟩ := h
        have htl_none : dlookup trs tid = none := by
          apply dlookup_eq_none_of_not_mem
          intro hmem
          exact (hhd ▸ hnd.1) (age_tracks_keys now tl trs us hrest tid hmem)
        have hus_none : us.filter (fun u => upd_id u == some tid) = [] := by
          apply List.filter_eq_nil_iff.mpr
          intro u hu
          obtain ⟨k, hk, hid⟩ := age_tracks_upd_ids now tl trs us hrest u hu
          have : k ≠ tid := fun he => (hhd ▸ hnd.1) (he ▸ hk)
          simp [hid, this]
        constructor
        · rw [← h1]
          by_cases hdd : compute_status (now - ts) = "DEAD"
          · simp [hdd, htl_none]
          · simp [hdd, dlookup, hhd]
        · rw [← h2]
          rw [List.filter_append, hus_none, List.append_nil]
          by_cases hch : statusNe (compute_status (now - ts))
              ((dlookup tr "status").getD (.vstr "LIVE"))
          · simp [hch, upd_id, dlookup, hhd]
          · simp only [Bool.not_eq_true] at hch
            simp [hch]
    · -- head is a different track
      rw [dlookup, if_neg hhd] at hlk
      cases he : aging_entry now hd.1 hd.2 with
      | none => rw [he] at h; simp at h
      | some e =>
        rw [he] at h
        cases hrest : age_tracks now tl with
        | none => rw [hrest] at h; simp at h
        | some p =>
          obtain ⟨trs, us⟩ := p
          rw [hrest] at h
          simp only [Option.some.injEq, Prod.mk.injEq] at h
          obtain ⟨h1, h2⟩ := h
          obtain ⟨ihl, ihu⟩ := ih trs us hnd.2 hlk hrest
          constructor
          · rw [← h1]
            by_cases hdead : e.isDead
            · simp only [hdead, if_true]
              exact ihl
            · simp only [Bool.not_eq_true] at hdead
              simp only [hdead, Bool.false_eq_true, if_false]
              rw [dlookup, if_neg hhd]
              exact ihl
          · rw [← h2]
            rw [List.filter_append]
            have hhd_none : e.upd.toList.filter (fun u => upd_id u == some tid) = [] := by
              cases heu : e.upd with
              | none => simp
              | some u0 =>
                have := aging_entry_upd_id now hd.1 hd.2 e u0 he heu
                simp [this, hhd]
            rw [hhd_none, List.nil_append]
            exact ihu

/-- C2: on one (unpaused) aging tick, a stored track `tid` with numeric
`last_update_ts = ts` and string status `olds` is handled as follows, with
`age = now - ts`: its new status is `compute_status age`, which is DEAD iff
`age ≥ dead_ttl` (15 s), STALE iff `stale_ttl ≤ age < dead_ttl`, else LIVE;
the track stays in the store (with updated `age_sec`/`status`) iff the new
status is not DEAD and is removed on this same tick otherwise; and the tick
emits exactly one status-changed notification for `tid` iff the new status
differs from `olds`, in particular exactly one final notification when the
track becomes DEAD, and none while it sits in the same status. -/
theorem aging_tick_lifecycle (st : BState) (now : ℚ) (tid : String)
    (tr : Dict) (ts : ℚ) (olds : String)
    (hp : st.paused = false)
    (hkeys : (st.tracks.map Prod.fst).Nodup)
    (htr : dlookup st.tracks tid = some (.vdict tr))
    (hts : dlookup tr "last_update_ts" = some (.vnum ts))
    (hos : (dlookup tr "status").getD (.vstr "LIVE") = .vstr olds)
    (st' : BState) (upds : List OutEvent)
    (hrun : aging_tick st now = some (st', upds)) :
    (compute_status (now - ts) = "DEAD" ↔ now - ts ≥ TTL_DEAD_SEC) ∧
    (compute_status (now - ts) = "STALE" ↔
      now - ts < TTL_DEAD_SEC ∧ now - ts ≥ TTL_LIVE_SEC) ∧
    (compute_status (now - ts) = "LIVE" ↔ now - ts < TTL_LIVE_SEC) ∧
    (dlookup st'.tracks tid = (if compute_status (now - ts) = "DEAD" then none
      else some (.vdict (dset (dset tr "age_sec" (.vnum (round3 (now - ts))))
        "status" (.vstr (compute_status (now - ts))))))) ∧
    ((upds.filter (fun u => upd_id u == some tid)).length =
      (if compute_status (now - ts) = olds then 0 else 1)) := by
  obtain ⟨hc1, hc2, hc3⟩ := compute_status_iff (now - ts)
  rw [aging_tick, hp] at hrun
  simp only [Bool.false_eq_true, if_false] at hrun
  cases hat : age_tracks now st.tracks with
  | none => rw [hat] at hrun; simp at hrun
  | some p =>
    obtain ⟨trs, us⟩ := p
    rw [hat] at hrun
    simp only [Option.some.injEq, Prod.mk.injEq] at hrun
    obtain ⟨hst', hupds⟩ := hrun
    have hst'tracks : st'.tracks = trs := by rw [← hst']
    obtain ⟨hlk, hcount⟩ :=
      age_tracks_spec now tid tr ts hts st.tracks trs us hkeys htr hat
    refine ⟨hc1, hc2, hc3, ?_, ?_⟩
    · rw [hst'tracks]
      exact hlk
    · rw [← hupds, hcount, hos]
      by_cases heq : compute_status (now - ts) = olds
      · simp [statusNe, heq]
      · simp [statusNe, heq]

/-- C2 witness: a track last updated at `t = 0` with `stale_ttl = 5`,
`dead_ttl = 15`, aged at `now = 20`: it is removed (DEAD) with exactly one
notification. -/
theorem aging_tick_lifecycle_witness :
    ∃ st' upds,
      aging_tick { initState with tracks := [("t1", .vdict track_t1_norm0)] } 20 =
        some (st', upds) ∧
      (dlookup st'.tracks "t1" = (if compute_status ((20:ℚ) - 0) = "DEAD" then none
        else some (.vdict (dset (dset track_t1_norm0 "age_sec"
          (.vnum (round3 ((20:ℚ) - 0)))) "status"
          (.vstr (compute_status ((20:ℚ) - 0))))))) ∧
      ((upds.filter (fun u => upd_id u == some "t1")).length =
        (if compute_status ((20:ℚ) - 0) = "LIVE" then 0 else 1)) := by
  have h20 : (20 : ℚ) - 0 = 20 := by norm_num
  have hcs : compute_status (20 : ℚ) = "DEAD" := by
    norm_num [compute_status, TTL_DEAD_SEC, TTL_LIVE_SEC]
  have hr3 : round3 (20 : ℚ) = 20 := by
    simp [round3, pyRoundHalfEven]
    norm_num
  have hrun : aging_tick { initState with tracks := [("t1", .vdict track_t1_norm0)] } 20 =
      some ({ initState with
                tracks := []
                events_tail := [⟨"cop.track", .vdict [("id", .vstr "t1"),
                  ("status", .vstr "DEAD"), ("age_sec", .vnum 20)], 20⟩] },
            [⟨"cop.track", .vdict [("id", .vstr "t1"),
              ("status", .vstr "DEAD"), ("age_sec", .vnum 20)], 20⟩]) := by
    simp [aging_tick, age_tracks, aging_entry, dlookup, track_t1_norm0, initState,
      statusNe, hcs, hr3, push_tail, EVENTS_TAIL_MAX]
  obtain ⟨-, -, -, h4, h5⟩ :=
    aging_tick_lifecycle { initState with tracks := [("t1", .vdict track_t1_norm0)] }
      20 "t1" track_t1_norm0 0 "LIVE" rfl (by simp) (by simp [dlookup]) rfl rfl
      _ _ hrun
  exact ⟨_, _, hrun, h4, h5⟩

/-! ## Claim C4: RF bearing association -/

theorem fb_acc_fst_le (b : ℚ) (acc : ℚ × Option FTrack) (kv : String × FTrack) :
    (fb_acc b acc kv).1 ≤ acc.1 := by
  unfold fb_acc
  cases kv.2.az_deg with
  | none => simp
  | some az =>
    simp only
    split
    · exact le_of_lt (by assumption)
    · exact le_rfl

theorem fb_fold_fst_le (b : ℚ) (l : List (String × FTrack)) :
    ∀ acc : ℚ × Option FTrack, (l.foldl (fb_acc b) acc).1 ≤ acc.1 := by
  induction l with
  | nil => intro acc; simp
  | cons hd tl ih =>
    intro acc
    rw [List.foldl_cons]
    exact le_trans (ih (fb_acc b acc hd)) (fb_acc_fst_le b acc hd)

theorem fb_fold_lower (b : ℚ) (l : List (String × FTrack)) :
    ∀ acc : ℚ × Option FTrack, ∀ kv ∈ l, ∀ az, kv.2.az_deg = some az →
      (l.foldl (fb_acc b) acc).1 ≤ ang_diff_deg az b := by
  induction l with
  | nil => intro acc kv h; simp at h
  | cons hd tl ih =>
    intro acc kv hmem az haz
    rw [List.foldl_cons]
    rcases List.mem_cons.mp hmem with h | h
    · subst h
      refine le_trans (fb_fold_fst_le b tl (fb_acc b acc kv)) ?_
      unfold fb_acc
      rw [haz]
      simp only
      split
      · exact le_rfl
      · exact le_of_not_lt (by assumption)
    · exact ih (fb_acc b acc hd) kv h az haz

theorem fb_fold_attain (b : ℚ) (l : List (String × FTrack)) :
    ∀ acc : ℚ × Option FTrack,
      (l.foldl (fb_acc b) acc) = acc ∨
      ∃ kv ∈ l, ∃ az, kv.2.az_deg = some az ∧
        (l.foldl (fb_acc b) acc).2 = some kv.2 ∧
        (l.foldl (fb_acc b) acc).1 = ang_diff_deg az b := by
  induction l with
  | nil => intro acc; exact .inl rfl
  | cons hd tl ih =>
    intro acc
    rw [List.foldl_cons]
    rcases ih (fb_acc b acc hd) with h | ⟨kv, hmem, az, haz, h2, h1⟩
    · rw [h]
      cases haz : hd.2.az_deg with
      | none =>
        left
        unfold fb_acc
        rw [haz]
      | some az =>
        by_cases hlt : ang_diff_deg az b < acc.1
        · right
          refine ⟨hd, by simp, az, haz, ?_, ?_⟩ <;>
            · unfold fb_acc
              rw [haz]
              simp [hlt]
        · left
          unfold fb_acc
          rw [haz]
          simp [hlt]
    · exact .inr ⟨kv, List.mem_cons_of_mem _ hmem, az, haz, h2, h1⟩

theorem mem_distList (tracks : List (String × FTrack)) (b x : ℚ) :
    x ∈ distList tracks b ↔
      ∃ kv ∈ tracks, ∃ az, kv.2.az_deg = some az ∧ ang_diff_deg az b = x := by
  simp only [distList, List.mem_filterMap, Option.map_eq_some']

/-- C4: for every RF detection bearing and non-empty set of tracks with
known azimuth (so the list of wrap-to-`[-180, 180)` angular distances has a
minimum `m`), `find_best_track_for_rf` selects a track iff `m` is within
the configured bearing gate, and the selected track attains `m`; with the
gate exceeded it selects nothing. -/
theorem rf_association_gate (gate bearing : ℚ) (tracks : List (String × FTrack))
    (m : ℚ) (hmin : (distList tracks bearing).minimum = (m : WithTop ℚ)) :
    (m ≤ gate → ∃ tr az, find_best_track_for_rf gate tracks bearing = some tr ∧
       tr.az_deg = some az ∧ ang_diff_deg az bearing = m) ∧
    (gate < m → find_best_track_for_rf gate tracks bearing = none) := by
  obtain ⟨hm_mem, hm_low⟩ := List.minimum_eq_coe_iff.mp hmin
  obtain ⟨kv0, hkv0, az0, haz0, hx0⟩ := (mem_distList tracks bearing m).mp hm_mem
  set F := tracks.foldl (fb_acc bearing) ((1000000000 : ℚ), none) with hF
  have hlow : F.1 ≤ m := by
    rw [← hx0]
    exact fb_fold_lower bearing tracks _ kv0 hkv0 az0 haz0
  have hm180 : m ≤ 180 := by
    rw [← hx0]
    exact ang_diff_deg_le az0 bearing
  have hattain : ∃ kv ∈ tracks, ∃ az, kv.2.az_deg = some az ∧
      F.2 = some kv.2 ∧ F.1 = ang_diff_deg az bearing := by
    rcases fb_fold_attain bearing tracks ((1000000000 : ℚ), none) with h | h
    · exfalso
      have : F.1 = 1000000000 := by rw [hF, h]
      linarith [hlow, hm180, this]
    · exact h
  obtain ⟨kv, hkv, az, haz, hF2, hF1⟩ := hattain
  have hup : m ≤ F.1 := by
    rw [hF1]
    exact hm_low _ ((mem_distList tracks bearing _).mpr ⟨kv, hkv, az, haz, rfl⟩)
  have hFm : F.1 = m := le_antisymm hlow hup
  have hfb : find_best_track_for_rf gate tracks bearing =
      (if F.1 ≤ gate then some kv.2 else none) := by
    rw [find_best_track_for_rf, ← hF, hF2]
  constructor
  · intro hgate
    refine ⟨kv.2, az, ?_, haz, ?_⟩
    · rw [hfb, if_pos (hFm ▸ hgate)]
    · rw [← hF1, hFm]
  · intro hgate
    rw [hfb, if_neg (by rw [hFm]; exact not_le.mpr hgate)]

/-- C4 witness: a bearing of 10° with one track at azimuth 0° (distance
10°) associates under gate 12° and does not under gate 8°. -/
theorem rf_association_gate_witness :
    ∃ tr az,
      find_best_track_for_rf 12 [("T", c4_track)] 10 = some tr ∧
      tr.az_deg = some az ∧ ang_diff_deg az 10 = 10 ∧
      find_best_track_for_rf 8 [("T", c4_track)] 10 = none := by
  have hang : ang_diff_deg 0 10 = 10 := by
    have hfl : ⌊((0:ℚ) - 10 + 180) / 360⌋ = 0 := by norm_num
    simp only [ang_diff_deg, wrap_deg, fmod, hfl]
    norm_num
  have hdl : distList [("T", c4_track)] 10 = [10] := by
    simp [distList, c4_track, hang]
  have hmin : (distList [("T", c4_track)] 10).minimum = ((10:ℚ) : WithTop ℚ) := by
    rw [hdl]
    simp
  obtain ⟨h12, -⟩ := rf_association_gate 12 10 [("T", c4_track)] 10 hmin
  obtain ⟨-, h8⟩ := rf_association_gate 8 10 [("T", c4_track)] 10 hmin
  obtain ⟨tr, az, hfb, haz, hm⟩ := h12 (by norm_num)
  exact ⟨tr, az, hfb, haz, by rw [hm], h8 (by norm_num)⟩

/-! ## Claims C3 and C10: sensor-evidence confirmation -/

theorem mem_keys_bump_self (l : List (String × Nat)) (s : String) :
    s ∈ (bump l s).map Prod.fst := by
  induction l with
  | nil => simp [bump]
  | cons hd tl ih =>
    by_cases h : hd.1 = s
    · simp [bump, h]
    · simp only [bump, if_neg h, List.map_cons, List.mem_cons]
      exact .inr ih

theorem mem_keys_bump_of_mem (l : List (String × Nat)) (s k : String)
    (h : k ∈ l.map Prod.fst) : k ∈ (bump l s).map Prod.fst := by
  induction l with
  | nil => simp at h
  | cons hd tl ih =>
    simp only [List.map_cons, List.mem_cons] at h
    by_cases hh : hd.1 = s
    · simp only [bump, if_pos hh, List.map_cons, List.mem_cons]
      rcases h with h | h
      · exact .inl (hh ▸ h)
      · exact .inr h
    · simp only [bump, if_neg hh, List.map_cons, List.mem_cons]
      rcases h with h | h
      · exact .inl h
      · exact .inr (ih h)

theorem keys_bump_subset (l : List (String × Nat)) (s k : String)
    (h : k ∈ (bump l s).map Prod.fst) : k = s ∨ k ∈ l.map Prod.fst := by
  induction l with
  | nil => simp [bump] at h; exact .inl h
  | cons hd tl ih =>
    by_cases hh : hd.1 = s
    · simp only [bump, if_pos hh, List.map_cons, List.mem_cons] at h
      rcases h with h | h
      · exact .inl (h.trans hh)
      · exact .inr (by simp [h])
    · simp only [bump, if_neg hh, List.map_cons, List.mem_cons] at h
      rcases h with h | h
      · exact .inr (by simp [h])
      · rcases ih h with h' | h'
        · exact .inl h'
        · exact .inr (by simp [h'])

theorem keys_bump_nodup (l : List (String × Nat)) (s : String)
    (h : (l.map Prod.fst).Nodup) : ((bump l s).map Prod.fst).Nodup := by
  induction l with
  | nil => simp [bump]
  | cons hd tl ih =>
    simp only [List.map_cons, List.nodup_cons] at h
    by_cases hh : hd.1 = s
    · simp only [bump, if_pos hh, List.map_cons, List.nodup_cons]
      exact ⟨hh ▸ h.1, h.2⟩
    · simp only [bump, if_neg hh, List.map_cons, List.nodup_cons]
      refine ⟨fun hmem => ?_, ih h.2⟩
      rcases keys_bump_subset tl s hd.1 hmem with h' | h'
      · exact hh h'
      · exact h.1 h'

theorem two_mem_length {α : Type} {l : List α} {a b : α}
    (ha : a ∈ l) (hb : b ∈ l) (hne : a ≠ b) : 2 ≤ l.length := by
  match l with
  | [] => simp at ha
  | [x] =>
    simp only [List.mem_singleton] at ha hb
    exact absurd (ha.trans hb.symm) hne
  | x :: y :: rest =>
    simp only [List.length_cons]
    omega

theorem tset_mem (l : List (String × FTrack)) (key : String) (v : FTrack)
    (kv : String × FTrack) (h : kv ∈ tset l key v) : kv.2 = v ∨ kv ∈ l := by
  induction l with
  | nil => simp [tset] at h; simp [h]
  | cons hd tl ih =>
    by_cases hh : hd.1 = key
    · simp only [tset, if_pos hh, List.mem_cons] at h
      rcases h with h | h
      · exact .inl (by simp [h])
      · exact .inr (List.mem_cons_of_mem _ h)
    · simp only [tset, if_neg hh, List.mem_cons] at h
      rcases h with h | h
      · exact .inr (by simp [h])
      · rcases ih h with h' | h'
        · exact .inl h'
        · exact .inr (List.mem_cons_of_mem _ h')

theorem tlookup_mem (l : List (String × FTrack)) (key : String) (tr : FTrack)
    (h : tlookup l key = some tr) : ∃ k, (k, tr) ∈ l := by
  induction l with
  | nil => simp [tlookup] at h
  | cons hd tl ih =>
    by_cases hh : hd.1 = key
    · rw [tlookup, if_pos hh] at h
      simp only [Option.some.injEq] at h
      exact ⟨hd.1, by simp [← h]⟩
    · rw [tlookup, if_neg hh] at h
      obtain ⟨k, hk⟩ := ih h
      exact ⟨k, List.mem_cons_of_mem _ hk⟩

theorem find_best_mem (gate : ℚ) (tracks : List (String × FTrack)) (b : ℚ)
    (tr : FTrack) (h : find_best_track_for_rf gate tracks b = some tr) :
    ∃ k, (k, tr) ∈ tracks := by
  rw [find_best_track_for_rf] at h
  cases hF2 : (tracks.foldl (fb_acc b) ((1000000000 : ℚ), none)).2 with
  | none => rw [hF2] at h; simp at h
  | some tr0 =>
    rw [hF2] at h
    simp only at h
    split at h
    · simp only [Option.some.injEq] at h
      rcases fb_fold_attain b tracks ((1000000000 : ℚ), none) with hA | hA
      · rw [hA] at hF2; simp at hF2
      · obtain ⟨kv, hmem, az, haz, h2, -⟩ := hA
        rw [hF2] at h2
        simp only [Option.some.injEq] at h2
        have he : tr = kv.2 := by rw [← h, h2]
        rw [he]
        exact ⟨kv.1, hmem⟩
    · simp at h

theorem radar_step_wf (tracks : List (String × FTrack)) (ts : String)
    (det : RadarDet) (h : tracksWF tracks) : tracksWF (radar_step tracks ts det) := by
  intro kv hkv
  rw [radar_step] at hkv
  cases hr : det.range_m with
  | none => rw [hr] at hkv; exact h kv hkv
  | some r =>
    cases ha : det.az_deg with
    | none => rw [hr, ha] at hkv; exact h kv hkv
    | some az =>
      rw [hr, ha] at hkv
      simp only at hkv
      rcases tset_mem _ _ _ _ hkv with he | he
      · rw [he]
        simp only [touch_sensor]
        exact mem_keys_bump_self _ "RADAR"
      · exact h kv he

theorem rf_step_wf (gate : ℚ) (tracks : List (String × FTrack))
    (dets : List RFDet) (h : tracksWF tracks) :
    tracksWF (rf_step gate tracks dets).1 := by
  intro kv hkv
  rw [rf_step.eq_def] at hkv
  cases dets with
  | nil => exact h kv hkv
  | cons d0 rest =>
    simp only at hkv
    cases hb : d0.bearing_deg with
    | none => rw [hb] at hkv; exact h kv hkv
    | some bearing =>
      rw [hb] at hkv
      simp only at hkv
      cases hf : find_best_track_for_rf gate tracks bearing with
      | none => rw [hf] at hkv; exact h kv hkv
      | some tr0 =>
        rw [hf] at hkv
        simp only at hkv
        obtain ⟨k0, hk0⟩ := find_best_mem gate tracks bearing tr0 hf
        have hr0 : "RADAR" ∈ tr0.supporting_sensors.map Prod.fst := h (k0, tr0) hk0
        have hr1 : "RADAR" ∈ (touch_sensor tr0 "RF" "RF confirm").supporting_sensors.map Prod.fst := by
          simp only [touch_sensor]
          exact mem_keys_bump_of_mem _ _ _ hr0
        split at hkv
        · rcases tset_mem _ _ _ _ hkv with he | he
          · rw [he]; exact hr1
          · exact h kv he
        · rcases tset_mem _ _ _ _ hkv with he | he
          · rw [he]; exact hr1
          · exact h kv he

theorem rf_step_confirmed (gate : ℚ) (tracks : List (String × FTrack))
    (dets : List RFDet) (h : tracksWF tracks) :
    ∀ tid s supp, FOut.trackUpdate tid s supp ∈ (rf_step gate tracks dets).2 →
      s = "CONFIRMED" := by
  intro tid s supp hmem
  rw [rf_step.eq_def] at hmem
  cases dets with
  | nil => simp at hmem
  | cons d0 rest =>
    simp only at hmem
    cases hb : d0.bearing_deg with
    | none => rw [hb] at hmem; simp at hmem
    | some bearing =>
      rw [hb] at hmem
      simp only at hmem
      cases hf : find_best_track_for_rf gate tracks bearing with
      | none => rw [hf] at hmem; simp at hmem
      | some tr0 =>
        rw [hf] at hmem
        simp only at hmem
        obtain ⟨k0, hk0⟩ := find_best_mem gate tracks bearing tr0 hf
        have hr0 : "RADAR" ∈ tr0.supporting_sensors.map Prod.fst := h (k0, tr0) hk0
        set tr := touch_sensor tr0 "RF" "RF confirm" with htr
        have hRF : "RF" ∈ tr.supporting_sensors.map Prod.fst := by
          simp only [htr, touch_sensor]
          exact mem_keys_bump_self _ "RF"
        have hRAD : "RADAR" ∈ tr.supporting_sensors.map Prod.fst := by
          simp only [htr, touch_sensor]
          exact mem_keys_bump_of_mem _ _ _ hr0
        have h2 : 2 ≤ num_unique_sensors tr := by
          have hlen : 2 ≤ (tr.supporting_sensors.map Prod.fst).length :=
            two_mem_length hRAD hRF (by decide)
          rw [num_unique_sensors, ← List.length_map tr.supporting_sensors Prod.fst]
          exact hlen
        rw [if_pos h2] at hmem
        simp only [List.mem_cons, List.mem_singleton] at hmem
        rcases hmem with hm | hm | hm
        · injection hm with h1 h2 h3
          exact h2.symm ▸ (by rw [if_pos (by exact ‹2 ≤ num_unique_sensors tr›)])
        · exact absurd hm (by simp)
        · exact absurd hm (by simp)

theorem radar_fold_wf (ts : String) (dets : List RadarDet) :
    ∀ tracks, tracksWF tracks →
      tracksWF (dets.foldl (fun t d => radar_step t ts d) tracks) := by
  induction dets with
  | nil => intro tracks h; exact h
  | cons hd tl ih =>
    intro tracks h
    rw [List.foldl_cons]
    exact ih _ (radar_step_wf tracks ts hd h)

theorem fuse_step_spec (gate : ℚ) (tracks : List (String × FTrack))
    (ev : FEvent) (h : tracksWF tracks) :
    tracksWF (fuse_step gate tracks ev).1 ∧
    (∀ tid s supp, FOut.trackUpdate tid s supp ∈ (fuse_step gate tracks ev).2 →
      s = "CONFIRMED") := by
  cases ev with
  | radar ts dets =>
    refine ⟨radar_fold_wf ts dets tracks h, ?_⟩
    intro tid s supp hmem
    simp [fuse_step] at hmem
  | rf ts dets =>
    exact ⟨rf_step_wf gate tracks dets h, rf_step_confirmed gate tracks dets h⟩
  | other =>
    refine ⟨h, ?_⟩
    intro tid s supp hmem
    simp [fuse_step] at hmem

/-- C10: every `track.update` event the fuser actually emits on any input
stream has status CONFIRMED — the TENTATIVE branch is unreachable, because
tracks are created only by radar detections (which record the RADAR sensor
kind) and a `track.update` is emitted only after an RF association bumps
the RF kind, so every emission sees at least two distinct sensor kinds. -/
theorem track_updates_always_confirmed (gate : ℚ) (evs : List FEvent) :
    ∀ tid s supp, FOut.trackUpdate tid s supp ∈ (fuse_run gate evs).2 →
      s = "CONFIRMED" := by
  suffices h : ∀ (acc : List (String × FTrack) × List FOut),
      tracksWF acc.1 →
      (∀ tid s supp, FOut.trackUpdate tid s supp ∈ acc.2 → s = "CONFIRMED") →
      ∀ tid s supp, FOut.trackUpdate tid s supp ∈
        (evs.foldl (fun acc ev =>
          let r := fuse_step gate acc.1 ev
          (r.1, acc.2 ++ r.2)) acc).2 → s = "CONFIRMED" by
    intro tid s supp hmem
    exact h ([], []) (fun kv hkv => by simp at hkv)
      (fun tid s supp hm => by simp at hm) tid s supp hmem
  induction evs with
  | nil => intro acc h1 h2; exact h2
  | cons hd tl ih =>
    intro acc h1 h2
    rw [List.foldl_cons]
    refine ih _ (fuse_step_spec gate acc.1 hd h1).1 ?_
    intro tid s supp hm
    rcases List.mem_append.mp hm with hm | hm
    · exact h2 tid s supp hm
    · exact (fuse_step_spec gate acc.1 hd h1).2 tid s supp hm

theorem rf_step_update_shape (gate : ℚ) (tracks : List (String × FTrack))
    (dets : List RFDet) (tid s : String) (supp : List String)
    (hwf : ∀ kv ∈ tracks, (kv.2.supporting_sensors.map Prod.fst).Nodup)
    (hmem : FOut.trackUpdate tid s supp ∈ (rf_step gate tracks dets).2) :
    supp.Nodup ∧ (s = "CONFIRMED" ↔ 2 ≤ supp.length) ∧
      (s = "TENTATIVE" ↔ supp.length < 2) := by
  rw [rf_step.eq_def] at hmem
  cases dets with
  | nil => simp at hmem
  | cons d0 rest =>
    simp only at hmem
    cases hb : d0.bearing_deg with
    | none => rw [hb] at hmem; simp at hmem
    | some bearing =>
      rw [hb] at hmem
      simp only at hmem
      cases hf : find_best_track_for_rf gate tracks bearing with
      | none => rw [hf] at hmem; simp at hmem
      | some tr0 =>
        rw [hf] at hmem
        simp only at hmem
        obtain ⟨k0, hk0⟩ := find_best_mem gate tracks bearing tr0 hf
        have hnd0 : (tr0.supporting_sensors.map Prod.fst).Nodup := hwf (k0, tr0) hk0
        set tr := touch_sensor tr0 "RF" "RF confirm" with htr
        have hnd : (tr.supporting_sensors.map Prod.fst).Nodup := by
          simp only [htr, touch_sensor]
          exact keys_bump_nodup _ _ hnd0
        have hlen : (tr.supporting_sensors.map Prod.fst).length =
            num_unique_sensors tr := by
          rw [num_unique_sensors, List.length_map]
        by_cases h2 : 2 ≤ num_unique_sensors tr
        · rw [if_pos h2] at hmem
          simp only [List.mem_cons, List.mem_singleton] at hmem
          rcases hmem with hm | hm | hm
          · injection hm with e1 e2 e3
            subst e2
            subst e3
            rw [if_pos h2]
            refine ⟨hnd, ?_, ?_⟩
            · simp only [hlen]
              constructor
              · intro _
                exact h2
              · intro _
                trivial

            · constructor
              · intro hcon
                exact absurd hcon (by decide)
              · intro hlt
                rw [hlen] at hlt
                omega
          · exact absurd hm (by simp)
          · exact absurd hm (by simp)
        · rw [if_neg h2] at hmem
          simp only [List.mem_singleton] at hmem
          injection hmem with e1 e2 e3
          subst e2
          subst e3
          rw [if_neg h2]
          refine ⟨hnd, ?_, ?_⟩
          · constructor
            · intro hcon
              exact absurd hcon (by decide)
            · intro hge
              rw [hlen] at hge
              exact absurd hge h2
          · simp only [hlen]
            constructor
            · intro _
              omega
            · intro _
              trivial

theorem keys_bump_radar (l : List (String × Nat))
    (h : l.map Prod.fst = ["RADAR"]) :
    (bump l "RADAR").map Prod.fst = ["RADAR"] := by
  match l with
  | [] => simp at h
  | [(k, n)] =>
    simp only [List.map_cons, List.map_nil, List.cons.injEq, and_true] at h
    simp [bump, h]
  | x :: y :: rest => simp at h

theorem radar_step_keys (tracks : List (String × FTrack)) (ts : String)
    (det : RadarDet)
    (h : ∀ kv ∈ tracks, kv.2.supporting_sensors.map Prod.fst = ["RADAR"]) :
    ∀ kv ∈ radar_step tracks ts det,
      kv.2.supporting_sensors.map Prod.fst = ["RADAR"] := by
  intro kv hkv
  rw [radar_step] at hkv
  cases hr : det.range_m with
  | none => rw [hr] at hkv; exact h kv hkv
  | some r =>
    cases ha : det.az_deg with
    | none => rw [hr, ha] at hkv; exact h kv hkv
    | some az =>
      rw [hr, ha] at hkv
      simp only at hkv
      have hss : ((tlookup tracks (make_track_id r az)).getD
            { track_id := make_track_id r az }).supporting_sensors.map Prod.fst =
            ["RADAR"] ∨
          ((tlookup tracks (make_track_id r az)).getD
            { track_id := make_track_id r az }).supporting_sensors = [] := by
        cases htl : tlookup tracks (make_track_id r az) with
        | none => right; rfl
        | some tr0 =>
          left
          obtain ⟨k0, hk0⟩ := tlookup_mem tracks (make_track_id r az) tr0 htl
          exact h (k0, tr0) hk0
      rcases tset_mem _ _ _ _ hkv with he | he
      · rw [he]
        simp only [touch_sensor]
        rcases hss with hss | hss
        · exact keys_bump_radar _ hss
        · rw [hss]
          simp [bump]
      · exact h kv he

theorem radar_fold_keys (ts : String) (dets : List RadarDet) :
    ∀ tracks, (∀ kv ∈ tracks, kv.2.supporting_sensors.map Prod.fst = ["RADAR"]) →
      ∀ kv ∈ dets.foldl (fun t d => radar_step t ts d) tracks,
        kv.2.supporting_sensors.map Prod.fst = ["RADAR"] := by
  induction dets with
  | nil => intro tracks h; exact h
  | cons hd tl ih =>
    intro tracks h
    rw [List.foldl_cons]
    exact ih _ (radar_step_keys tracks ts hd h)

theorem radar_only_run (gate : ℚ) (evs : List FEvent)
    (honly : ∀ e ∈ evs, ∃ ts dets, e = FEvent.radar ts dets) :
    (fuse_run gate evs).2 = [] ∧
    ∀ kv ∈ (fuse_run gate evs).1,
      kv.2.supporting_sensors.map Prod.fst = ["RADAR"] := by
  suffices h : ∀ (acc : List (String × FTrack) × List FOut),
      acc.2 = [] →
      (∀ kv ∈ acc.1, kv.2.supporting_sensors.map Prod.fst = ["RADAR"]) →
      (∀ e ∈ evs, ∃ ts dets, e = FEvent.radar ts dets) →
      (evs.foldl (fun acc ev =>
        let r := fuse_step gate acc.1 ev
        (r.1, acc.2 ++ r.2)) acc).2 = [] ∧
      ∀ kv ∈ (evs.foldl (fun acc ev =>
        let r := fuse_step gate acc.1 ev
        (r.1, acc.2 ++ r.2)) acc).1,
        kv.2.supporting_sensors.map Prod.fst = ["RADAR"] by
    exact h ([], []) rfl (fun kv hkv => by simp at hkv) honly
  clear honly
  induction evs with
  | nil => intro acc h1 h2 _; exact ⟨h1, h2⟩
  | cons hd tl ih =>
    intro acc h1 h2 honly
    rw [List.foldl_cons]
    obtain ⟨ts, dets, he⟩ := honly hd (by simp)
    subst he
    refine ih _ ?_ ?_ (fun e hme => honly e (List.mem_cons_of_mem _ hme))
    · simp only [fuse_step, h1]
      simp
    · simp only [fuse_step]
      exact radar_fold_keys ts dets acc.1 h2

/-- C3: the status carried by an emitted `track.update` is CONFIRMED
exactly when the track's supporting-sensor map holds ≥ 2 distinct kinds at
emission time (the emitted `supporting` list are those kinds, duplicate
free) and TENTATIVE otherwise; and on a stream of radar-only events — any
number of updates from that single sensor kind — no `track.update` is ever
emitted and every track still has exactly the one kind RADAR, so no amount
of single-kind evidence yields CONFIRMED. -/
theorem rf_confirmation_iff_two_kinds :
    (∀ (gate : ℚ) (tracks : List (String × FTrack)) (dets : List RFDet)
       (tid s : String) (supp : List String),
       (∀ kv ∈ tracks, (kv.2.supporting_sensors.map Prod.fst).Nodup) →
       FOut.trackUpdate tid s supp ∈ (rf_step gate tracks dets).2 →
       supp.Nodup ∧ (s = "CONFIRMED" ↔ 2 ≤ supp.length) ∧
         (s = "TENTATIVE" ↔ supp.length < 2)) ∧
    (∀ (gate : ℚ) (evs : List FEvent),
       (∀ e ∈ evs, ∃ ts dets, e = FEvent.radar ts dets) →
       (fuse_run gate evs).2 = [] ∧
       ∀ kv ∈ (fuse_run gate evs).1,
         kv.2.supporting_sensors.map Prod.fst = ["RADAR"]) :=
  ⟨fun gate tracks dets tid s supp hwf hmem =>
     rf_step_update_shape gate tracks dets tid s supp hwf hmem,
   fun gate evs honly => radar_only_run gate evs honly⟩

theorem hang5 : ang_diff_deg 0 5 = 5 := by
  have hfl : ⌊((0:ℚ) - 5 + 180) / 360⌋ = 0 := by norm_num
  simp only [ang_diff_deg, wrap_deg, fmod, hfl]
  norm_num

theorem c3_rf_out :
    (rf_step 12 [("T", c3_track)] [⟨some 5, none⟩]).2 =
      [FOut.trackUpdate "T" "CONFIRMED" ["RADAR", "RF"],
       FOut.threat "T" "MEDIUM" 50] := by
  have h1 : ang_diff_deg 0 5 < 1000000000 := by rw [hang5]; norm_num
  have h2 : ang_diff_deg 0 5 ≤ 12 := by rw [hang5]; norm_num
  simp [rf_step, find_best_track_for_rf, fb_acc, c3_track, h1, h2,
    touch_sensor, bump, num_unique_sensors]
  norm_num

/-- C3 witness: an RF detection at bearing 5° attaching to a radar track at
azimuth 0° emits CONFIRMED with the two kinds RADAR and RF; a pure radar
stream emits nothing. -/
theorem rf_confirmation_witness :
    FOut.trackUpdate "T" "CONFIRMED" ["RADAR", "RF"] ∈
      (rf_step 12 [("T", c3_track)] [⟨some 5, none⟩]).2 ∧
    (["RADAR", "RF"] : List String).Nodup ∧
    ("CONFIRMED" = "CONFIRMED" ↔ 2 ≤ (["RADAR", "RF"] : List String).length) ∧
    ("CONFIRMED" = "TENTATIVE" ↔ (["RADAR", "RF"] : List String).length < 2) ∧
    (fuse_run 12 [FEvent.radar "t0" [⟨some 1000, some 0, 0, 0⟩]]).2 = [] := by
  have hmem : FOut.trackUpdate "T" "CONFIRMED" ["RADAR", "RF"] ∈
      (rf_step 12 [("T", c3_track)] [⟨some 5, none⟩]).2 := by
    rw [c3_rf_out]
    simp
  have h1 := rf_confirmation_iff_two_kinds.1 12 [("T", c3_track)]
    [⟨some 5, none⟩] "T" "CONFIRMED" ["RADAR", "RF"]
    (by intro kv hkv; simp at hkv; simp [hkv, c3_track]) hmem
  have h2 := rf_confirmation_iff_two_kinds.2 12
    [FEvent.radar "t0" [⟨some 1000, some 0, 0, 0⟩]]
    (by intro e he; simp at he; exact ⟨"t0", _, he⟩)
  exact ⟨hmem, h1.1, h1.2.1, h1.2.2, h2.1⟩

theorem c10_run_out :
    (fuse_run 12 [FEvent.radar "t0" [⟨some 1000, some 0, 0, 0⟩],
                  FEvent.rf "t1" [⟨some 5, none⟩]]).2 =
      [FOut.trackUpdate (make_track_id 1000 0) "CONFIRMED" ["RADAR", "RF"],
       FOut.threat (make_track_id 1000 0) "LOW" 20] := by
  have h1 : ang_diff_deg 0 5 < 1000000000 := by rw [hang5]; norm_num
  have h2 : ang_diff_deg 0 5 ≤ 12 := by rw [hang5]; norm_num
  simp [fuse_run, fuse_step, radar_step, rf_step, find_best_track_for_rf,
    fb_acc, touch_sensor, bump, num_unique_sensors, tset, tlookup, h1, h2]
  norm_num

/-- C10 witness: a radar detection followed by an associating RF detection
emits a `track.update`, and its status is CONFIRMED. -/
theorem track_updates_always_confirmed_witness :
    FOut.trackUpdate (make_track_id 1000 0) "CONFIRMED" ["RADAR", "RF"] ∈
      (fuse_run 12 [FEvent.radar "t0" [⟨some 1000, some 0, 0, 0⟩],
                    FEvent.rf "t1" [⟨some 5, none⟩]]).2 ∧
    "CONFIRMED" = "CONFIRMED" := by
  have hmem : FOut.trackUpdate (make_track_id 1000 0) "CONFIRMED" ["RADAR", "RF"] ∈
      (fuse_run 12 [FEvent.radar "t0" [⟨some 1000, some 0, 0, 0⟩],
                    FEvent.rf "t1" [⟨some 5, none⟩]]).2 := by
    rw [c10_run_out]
    simp
  exact ⟨hmem, track_updates_always_confirmed 12 _ _ _ _ hmem⟩

end Nizam
